import Mathlib

/-!
Verification of the persona-catalog core of the `speaking-meeting-bot`
repository (`config/persona_utils.py`), as a shallow embedding.

Python strings are modelled as Lean `String`, with the string operations the
source uses (`split`, `split(sep, 1)`, `replace`, `strip`, `split()`,
`startswith`, `in`, `lower`, `join`) re-implemented over `List Char` with the
exact Python semantics.  Fallible code (Python exceptions) is modelled with
`Option` / `Except`.  The `markdown.Markdown.convert` call in `parse_readme`
computes a value that is never used, so it has no counterpart here.  Sources
of randomness (`random.choice`) are passed in as explicit parameters.

The constants imported from `config/prompts.py` (a file of the repository
that is not part of the sources given) are modelled from the spec as fixed
strings; see their doc comments.
-/

namespace PersonaBot

/-- Python whitespace characters recognised by `str.strip()` / `str.split()`
(the ASCII ones; the documents at issue contain no exotic Unicode spaces). -/
def isWsChar (c : Char) : Bool :=
  c == ' ' || c == '\t' || c == '\n' || c == '\r' || c == '\x0b' || c == '\x0c'

/-- First occurrence of `sep` in `s`: returns the part strictly before the
occurrence and the part strictly after it.  `none` when `sep` does not occur
(for nonempty `sep`). -/
def findSplit (sep : List Char) : List Char → Option (List Char × List Char)
  | [] => none
  | c :: cs =>
    if sep.isPrefixOf (c :: cs) then some ([], (c :: cs).drop sep.length)
    else
      match findSplit sep cs with
      | some (pre, post) => some (c :: pre, post)
      | none => none

/-- Fueled worker for Python `str.split(sep)` (all occurrences, empty parts
kept).  Fuel `s.length` always suffices for nonempty `sep`. -/
def splitOnF (sep : List Char) : Nat → List Char → List (List Char)
  | 0, s => [s]
  | fuel + 1, s =>
    match findSplit sep s with
    | none => [s]
    | some (pre, post) => pre :: splitOnF sep fuel post

/-- Python `s.split(sep)` for nonempty `sep`. -/
def splitOnL (sep s : List Char) : List (List Char) :=
  splitOnF sep s.length s

/-- Fueled worker for Python `str.replace(pat, rep)` (all occurrences,
left to right, non-overlapping). -/
def replaceF (pat rep : List Char) : Nat → List Char → List Char
  | 0, s => s
  | fuel + 1, s =>
    match findSplit pat s with
    | none => s
    | some (pre, post) => pre ++ rep ++ replaceF pat rep fuel post

/-- Python `s.replace(pat, rep)` for nonempty `pat`. -/
def replaceL (pat rep s : List Char) : List Char :=
  replaceF pat rep s.length s

/-- Drop trailing characters satisfying `p`. -/
def dropTrail (p : Char → Bool) (s : List Char) : List Char :=
  (s.reverse.dropWhile p).reverse

/-- Python `s.strip()`. -/
def trimL (s : List Char) : List Char :=
  dropTrail isWsChar (s.dropWhile isWsChar)

/-- Split a list at every element satisfying `p`, dropping those elements and
keeping empty chunks (the shape underlying Python `str.split(c)` for a single
character, and `str.split()` before empty chunks are discarded). -/
def splitPredL (p : Char → Bool) : List Char → List (List Char)
  | [] => [[]]
  | c :: cs =>
    match splitPredL p cs with
    | [] => [[c]]
    | h :: t => if p c then [] :: h :: t else (c :: h) :: t

/-- Python `s.split()` (split on whitespace runs, no empty parts). -/
def splitWsL (s : List Char) : List (List Char) :=
  (splitPredL isWsChar s).filter (· ≠ [])

/-- Python `sep.join(parts)`. -/
def joinSepL (sep : List Char) : List (List Char) → List Char
  | [] => []
  | [x] => x
  | x :: y :: t => x ++ sep ++ joinSepL sep (y :: t)

-- String-level wrappers ------------------------------------------------------

/-- Python `s.split(sep)`. -/
def splitOnS (sep s : String) : List String :=
  (splitOnL sep.data s.data).map fun l => ⟨l⟩

/-- Python `s.split(sep, 1)` when the separator occurs (the pair of parts);
`none` when it does not (`s.split(sep, 1)` would be the singleton `[s]`). -/
def splitFirstS (sep s : String) : Option (String × String) :=
  (findSplit sep.data s.data).map fun pr => (⟨pr.1⟩, ⟨pr.2⟩)

/-- Python `s.replace(pat, rep)`. -/
def replaceS (pat rep s : String) : String :=
  ⟨replaceL pat.data rep.data s.data⟩

/-- Python `s.strip()`. -/
def trimS (s : String) : String := ⟨trimL s.data⟩

/-- Python `s.split()`. -/
def splitWsS (s : String) : List String :=
  (splitWsL s.data).map fun l => ⟨l⟩

/-- Python `s.split("_")` (single-character separator, empty parts kept). -/
def splitUnderscoreS (s : String) : List String :=
  (splitPredL (· == '_') s.data).map fun l => ⟨l⟩

/-- Python `sep.join(parts)`. -/
def joinSepS (sep : String) (parts : List String) : String :=
  ⟨joinSepL sep.data (parts.map String.data)⟩

/-- Python `s.startswith(pre)`. -/
def startsWithS (s pre : String) : Bool :=
  pre.data.isPrefixOf s.data

/-- Python `s.endswith(post)`. -/
def endsWithS (s post : String) : Bool :=
  post.data.isSuffixOf s.data

/-- Python `sub in s` (substring containment). -/
def containsSubS (s sub : String) : Bool :=
  if sub.data = [] then true else (findSplit sub.data s.data).isSome

/-- Python `s.lower()`. -/
def lowerS (s : String) : String := ⟨s.data.map Char.toLower⟩

-- Modelled constants from config/prompts.py ----------------------------------

/-- Modelled from the spec: `PERSONA_INTERACTION_INSTRUCTIONS` from
`config/prompts.py` (not among the given sources) — the fixed
interaction-instructions suffix appended to a returned persona's prompt. -/
def PERSONA_INTERACTION_INSTRUCTIONS : String :=
  "\n\nKeep your contributions short and conversational, and never talk over other participants."

/-- Modelled from the spec: `DEFAULT_ENTRY_MESSAGE` from `config/prompts.py`
(not among the given sources) — the system-wide default greeting. -/
def DEFAULT_ENTRY_MESSAGE : String := "Hello, I am here to help."

/-- Modelled from the spec: `DEFAULT_CHARACTERISTICS` from
`config/prompts.py` (not among the given sources) — the shared constant list
rendered into the Characteristics section of a saved document. -/
def DEFAULT_CHARACTERISTICS : List String :=
  ["Adaptable to conversation topics", "Attentive to other speakers"]

/-- Modelled from the spec: `DEFAULT_VOICE_CHARACTERISTICS` from
`config/prompts.py` (not among the given sources) — the shared constant list
rendered into the Voice section of a saved document. -/
def DEFAULT_VOICE_CHARACTERISTICS : List String :=
  ["a natural pace", "a clear tone"]

-- Data model ------------------------------------------------------------------

/-- The record produced for one persona document (the dict returned by
`PersonaManager.parse_readme`, plus the optional `additional_content` key
that `load_personas` may add). -/
structure PersonaRecord where
  name : String
  prompt : String
  image : String
  entry_message : String
  cartesia_voice_id : String
  gender : String
  relevant_links : List String
  additional_content : Option String := none
deriving Repr, DecidableEq

/-- The record `get_persona` returns: a copy of a stored record with the
interaction suffix appended to `prompt` and a `path` key added. -/
structure PersonaOut where
  name : String
  prompt : String
  image : String
  entry_message : String
  cartesia_voice_id : String
  gender : String
  relevant_links : List String
  additional_content : Option String := none
  path : String
deriving Repr, DecidableEq

/-- The in-memory catalog `self.personas`: an insertion-ordered mapping from
directory-name key to record (Python dicts preserve insertion order). -/
abbrev Catalog := List (String × PersonaRecord)

/-- `key in personas` / `personas[key]` on the catalog mapping. -/
def lookupC (cat : Catalog) (k : String) : Option PersonaRecord :=
  (cat.find? fun kv => kv.1 == k).map (·.2)

-- parse_readme ----------------------------------------------------------------

/-- The five-field metadata accumulator with the default values
`parse_readme` starts from. -/
structure Metadata where
  image : String := ""
  entry_message : String := ""
  cartesia_voice_id : String := ""
  gender : String := ""
  relevant_links : List String := []
deriving Repr, DecidableEq

/-- One iteration of `parse_readme`'s metadata loop body for a line of the
Metadata section. -/
def parseMetaLine (m : Metadata) (line : String) : Metadata :=
  if startsWithS line "- " then
    match splitFirstS ": " ⟨line.data.drop 2⟩ with
    | none => m
    | some (key, value) =>
      if key == "relevant_links" then
        { m with relevant_links := (splitWsS (trimS value)).filter fun url => url ≠ "" }
      else if key == "image" then { m with image := trimS value }
      else if key == "entry_message" then { m with entry_message := trimS value }
      else if key == "cartesia_voice_id" then { m with cartesia_voice_id := trimS value }
      else if key == "gender" then { m with gender := trimS value }
      else m
  else m

/-- The metadata scan of `parse_readme`: the first section that starts with
`"Metadata"` has each of its `"- "` lines folded through `parseMetaLine`;
with no such section the defaults stand. -/
def parseMetadata (sections : List String) : Metadata :=
  match sections.find? fun s => startsWithS s "Metadata" with
  | none => {}
  | some sec => (splitOnS "\n" sec).foldl parseMetaLine {}

/-- The name extraction of `parse_readme`:
`sections[0].split("\n", 1)[0].replace("# ", "").strip()`. -/
def parse_name (sec0 : String) : String :=
  trimS (replaceS "# " "" ⟨(findSplit ['\n'] sec0.data).elim sec0.data Prod.fst⟩)

/-- The record `parse_readme` assembles from name, prompt and metadata. -/
def recordOfParse (name prompt : String) (md : Metadata) : PersonaRecord :=
  { name, prompt, image := md.image, entry_message := md.entry_message,
    cartesia_voice_id := md.cartesia_voice_id, gender := md.gender,
    relevant_links := md.relevant_links }

/-- `PersonaManager.parse_readme`.  `none` models the `IndexError` raised by
`sections[0].split("\n\n", 1)[1]` when the preamble has no blank-line gap. -/
def parse_readme (content : String) : Option PersonaRecord :=
  let sections := splitOnS "\n## " content
  let sec0 := sections.headD ""
  match splitFirstS "\n\n" sec0 with
  | none => none
  | some (_, rest) =>
    some (recordOfParse (parse_name sec0) (trimS rest) (parseMetadata sections))

-- load_personas ---------------------------------------------------------------

/-- One immediate child of the personas root directory, with its files
(filename, content). -/
structure DirEnt where
  name : String
  isDir : Bool
  files : List (String × String)
deriving Repr, DecidableEq

/-- `README.md` of a persona directory, when present. -/
def readmeOf (d : DirEnt) : Option String :=
  ((d.files.find? fun f => f.1 == "README.md").map (·.2))

/-- `PersonaManager.load_additional_content`: every `*.md` file except
`README.md` and `.DS_Store`, stripped, nonempty, prefixed with a generated
heading, joined with blank lines. -/
def load_additional_content (files : List (String × String)) : String :=
  joinSepS "\n\n"
    ((files.filter fun f =>
        endsWithS f.1 ".md" && f.1 != "README.md" && f.1 != ".DS_Store").filterMap
      fun f =>
        let c := trimS f.2
        if c = "" then none
        else some ("# Content from " ++ f.1 ++ "\n\n" ++ c))

/-- Python dict assignment `personas[k] = v` on the ordered catalog. -/
def upsertC (cat : Catalog) (k : String) (v : PersonaRecord) : Catalog :=
  if cat.any fun kv => kv.1 == k then
    cat.map fun kv => if kv.1 == k then (k, v) else kv
  else cat ++ [(k, v)]

/-- The record stored for one directory: the parse result, with
`additional_content` attached when nonempty. -/
def recordFor (r : PersonaRecord) (d : DirEnt) : PersonaRecord :=
  let add := load_additional_content d.files
  if add = "" then r else { r with additional_content := some add }

/-- The directory loop of `load_personas`.  A parse failure raises out of the
single `try` that wraps the whole loop, so it aborts the load (`.error`). -/
def loadDirs : List DirEnt → Catalog → Except String Catalog
  | [], acc => .ok acc
  | d :: rest, acc =>
    if !d.isDir then loadDirs rest acc
    else
      match readmeOf d with
      | none => loadDirs rest acc   -- "Skipping persona without README" warning
      | some content =>
        match parse_readme content with
        | none => .error "list index out of range"
        | some r => loadDirs rest (upsertC acc d.name (recordFor r d))

/-- `PersonaManager.load_personas`.  The argument is the result of
enumerating the root directory (`self.personas_dir.iterdir()`); an
enumeration failure is fatal and propagates unchanged. -/
def load_personas (listing : Except String (List DirEnt)) : Except String Catalog :=
  match listing with
  | .error e => .error e
  | .ok dirs => loadDirs dirs []

-- save_persona ----------------------------------------------------------------

/-- The caller-supplied persona dict passed to `save_persona`: `name` and
`prompt` are indexed directly (a `KeyError` is out of scope for the claims),
the metadata keys are read with `.get(key, default)` and so may be absent. -/
structure PersonaInput where
  name : String
  prompt : String
  image : Option String := none
  entry_message : Option String := none
  cartesia_voice_id : Option String := none
  gender : Option String := none
  relevant_links : Option (List String) := none
deriving Repr, DecidableEq

/-- The document template written by `save_persona`. -/
def render_readme (name prompt : String) (m : Metadata) : String :=
  let characteristics := joinSepS "\n" (DEFAULT_CHARACTERISTICS.map fun c => "- " ++ c)
  let voice_chars := joinSepS "\n" (DEFAULT_VOICE_CHARACTERISTICS.map fun c => "- " ++ c)
  "# " ++ name ++ "\n\n" ++ prompt ++ "\n\n## Characteristics\n" ++ characteristics ++
  "\n\n## Voice\n" ++ name ++ " speaks with:\n" ++ voice_chars ++
  "\n\n## Metadata\n- image: " ++ m.image ++
  "\n- entry_message: " ++ m.entry_message ++
  "\n- cartesia_voice_id: " ++ m.cartesia_voice_id ++
  "\n- gender: " ++ m.gender ++
  "\n- relevant_links: " ++ joinSepS " " m.relevant_links ++ "\n"

/-- The merged metadata of `save_persona` when an existing README parsed to
`ex` (the `existing_metadata` dict then has all five keys). -/
def mergeWithExisting (p : PersonaInput) (ex : PersonaRecord) : Metadata :=
  { image := p.image.getD ex.image
    entry_message := p.entry_message.getD ex.entry_message
    cartesia_voice_id := p.cartesia_voice_id.getD ex.cartesia_voice_id
    gender := p.gender.getD ex.gender
    relevant_links := p.relevant_links.getD ex.relevant_links }

/-- The merged metadata of `save_persona` when no README exists
(`existing_metadata` is the empty dict, so every `.get` falls through to the
hardcoded default; `gender` falls through to the random draw). -/
def mergeFresh (p : PersonaInput) (genderDraw : String) : Metadata :=
  { image := p.image.getD ""
    entry_message := p.entry_message.getD DEFAULT_ENTRY_MESSAGE
    cartesia_voice_id := p.cartesia_voice_id.getD ""
    gender := p.gender.getD genderDraw
    relevant_links := p.relevant_links.getD [] }

/-- `random.choice(["MALE", "FEMALE"])`, with the random outcome supplied as
a boolean. -/
def genderChoice (coin : Bool) : String := if coin then "MALE" else "FEMALE"

/-- The existing-README branch of `PersonaManager.save_persona`: parse the
current document and merge its metadata under the caller's input. -/
def saveWithExisting (p : PersonaInput) (content : String) : Option String :=
  match parse_readme content with
  | none => none
  | some ex => some (render_readme p.name p.prompt (mergeWithExisting p ex))

/-- `PersonaManager.save_persona` for key directory state `existing` (the
current `README.md` content, when the file exists).  Returns the document
text written on success; `none` models the `return False` taken when the
body raises (here: when the existing README fails to parse). -/
def save_persona (p : PersonaInput) (existing : Option String) (coin : Bool) :
    Option String :=
  match existing with
  | some content => saveWithExisting p content
  | none => some (render_readme p.name p.prompt (mergeFresh p (genderChoice coin)))

-- get_persona -----------------------------------------------------------------

/-- `name.lower().replace(" ", "_")`. -/
def normalizeName (n : String) : String := replaceS " " "_" (lowerS n)

/-- `len(set(words) & set(key.split("_")))`: the number of distinct shared
words. -/
def overlapWords (qwords : List String) (key : String) : Nat :=
  ((qwords.dedup).filter fun w => (splitUnderscoreS key).contains w).length

/-- One iteration of the fuzzy-match loop of `get_persona`: the running best
match and maximal overlap are replaced only on strictly larger overlap. -/
def fuzzyStep (qwords : List String)
    (acc : Option (String × PersonaRecord) × Nat) (kv : String × PersonaRecord) :
    Option (String × PersonaRecord) × Nat :=
  let ov := overlapWords qwords kv.1
  if ov > acc.2 then (some kv, ov) else acc

/-- The fuzzy-match loop of `get_persona`. -/
def fuzzyFold (qwords : List String) (cat : Catalog) :
    Option (String × PersonaRecord) × Nat :=
  cat.foldl (fuzzyStep qwords) (none, 0)

/-- The tail of `get_persona`: copy the record, clear a falsy image, append
the interaction suffix, and add the `path` joined from the root directory and
the normalized query (or the normalized record name when no query). -/
def finishPersona (dir : String) (query : Option String) (r : PersonaRecord) :
    PersonaOut :=
  let image := if r.image == "" then "" else r.image
  let personaKey := match query with
    | some n => normalizeName n
    | none => normalizeName r.name
  { name := r.name
    prompt := r.prompt ++ PERSONA_INTERACTION_INSTRUCTIONS
    image
    entry_message := r.entry_message
    cartesia_voice_id := r.cartesia_voice_id
    gender := r.gender
    relevant_links := r.relevant_links
    additional_content := r.additional_content
    path := dir ++ "/" ++ personaKey }

/-- `PersonaManager.get_persona`.  `dir` is `self.personas_dir`; `pick` is
the index drawn by `random.choice` in the no-query branch.  The result pairs
the returned value (or raised `KeyError` message) with the catalog after the
call, which the method never mutates (it only mutates a `.copy()`). -/
def get_persona (cat : Catalog) (dir : String) (query : Option String)
    (pick : Nat) : Except String PersonaOut × Catalog :=
  match query with
  | some n =>
    let folder := normalizeName n
    match lookupC cat folder with
    | some r => (.ok (finishPersona dir (some n) r), cat)
    | none =>
      let qwords := splitWsS (lowerS n)
      match fuzzyFold qwords cat with
      | (some kv, mx) =>
        if mx ≥ 1 then (.ok (finishPersona dir (some n) kv.2), cat)
        else (.error ("Persona '" ++ n ++ "' not found. Valid options: " ++
                joinSepS ", " (cat.map (·.1))), cat)
      | (none, _) =>
        (.error ("Persona '" ++ n ++ "' not found. Valid options: " ++
           joinSepS ", " (cat.map (·.1))), cat)
  | none =>
    match cat.get? pick with
    | some kv => (.ok (finishPersona dir none kv.2), cat)
    | none => (.error "Cannot choose from an empty sequence", cat)

-- needs_image_upload ----------------------------------------------------------

/-- `PersonaManager.needs_image_upload`. -/
def needs_image_upload (cat : Catalog) (key : String)
    (domain : String := "uploadthing.com") : Bool :=
  match lookupC cat key with
  | none => false
  | some r => !(r.image != "" && containsSubS r.image domain)

/-! ## Lemmas about the string primitives -/

theorem isPrefixOf_append_self (l t : List Char) : l.isPrefixOf (l ++ t) = true :=
  List.isPrefixOf_iff_prefix.mpr (List.prefix_append l t)

theorem findSplit_eq {sep s pre post : List Char}
    (h : findSplit sep s = some (pre, post)) : s = pre ++ (sep ++ post) := by
  induction s generalizing pre post with
  | nil => simp [findSplit] at h
  | cons c cs ih =>
    rw [findSplit] at h
    by_cases hp : sep.isPrefixOf (c :: cs) = true
    · rw [if_pos hp] at h
      simp only [Option.some.injEq, Prod.mk.injEq] at h
      obtain ⟨h1, h2⟩ := h
      obtain ⟨t, ht⟩ := List.isPrefixOf_iff_prefix.mp hp
      subst h1
      rw [← ht, List.drop_left] at h2
      rw [← ht, ← h2]
      simp
    · rw [if_neg hp] at h
      cases hfs : findSplit sep cs with
      | none => rw [hfs] at h; simp at h
      | some pr =>
        obtain ⟨pre', post'⟩ := pr
        rw [hfs] at h
        simp only [Option.some.injEq, Prod.mk.injEq] at h
        obtain ⟨h1, h2⟩ := h
        subst h2
        rw [← h1, List.cons_append, ← ih hfs]

theorem findSplit_length {sep s pre post : List Char} (hsep : sep ≠ [])
    (h : findSplit sep s = some (pre, post)) : post.length < s.length := by
  have := findSplit_eq h
  subst this
  have : 0 < sep.length := List.length_pos.mpr hsep
  simp only [List.length_append]
  omega

theorem findSplit_occurs {sep s pre post : List Char}
    (h : findSplit sep s = some (pre, post)) : sep <:+: s :=
  ⟨pre, post, by rw [findSplit_eq h]; simp⟩

theorem findSplit_isSome_of_occurs {sep s : List Char} (hsep : sep ≠ [])
    (h : sep <:+: s) : (findSplit sep s).isSome = true := by
  induction s with
  | nil =>
    obtain ⟨t₁, t₂, ht⟩ := h
    have h2 := List.append_eq_nil.mp ht
    have h3 := List.append_eq_nil.mp h2.1
    exact absurd h3.2 hsep
  | cons c cs ih =>
    rw [findSplit]
    by_cases hp : sep.isPrefixOf (c :: cs) = true
    · rw [if_pos hp]; rfl
    · rw [if_neg hp]
      obtain ⟨t₁, t₂, ht⟩ := h
      cases t₁ with
      | nil =>
        exact absurd (List.isPrefixOf_iff_prefix.mpr ⟨t₂, by simpa using ht⟩) hp
      | cons d t₁' =>
        have hcs : sep <:+: cs := by
          refine ⟨t₁', t₂, ?_⟩
          have ht' := ht
          simp only [List.cons_append] at ht'
          injection ht' with _ h2
        have hsome := ih hcs
        cases hfs : findSplit sep cs with
        | none => rw [hfs] at hsome; simp at hsome
        | some pr =>
          obtain ⟨x, y⟩ := pr
          rfl

theorem findSplit_none_iff {sep s : List Char} (hsep : sep ≠ []) :
    findSplit sep s = none ↔ ¬ sep <:+: s := by
  constructor
  · intro h hinf
    have := findSplit_isSome_of_occurs hsep hinf
    rw [h] at this
    simp at this
  · intro h
    cases hfs : findSplit sep s with
    | none => rfl
    | some pr =>
      cases pr
      exact absurd (findSplit_occurs hfs) h

/-- Prefix tests only look at the first `sep.length` characters. -/
theorem isPrefixOf_append_of_le {sep x : List Char} (r : List Char)
    (h : sep.length ≤ x.length) : sep.isPrefixOf (x ++ r) = sep.isPrefixOf x := by
  induction sep generalizing x with
  | nil =>
    have h1 : ([] : List Char).isPrefixOf (x ++ r) = true :=
      List.isPrefixOf_iff_prefix.mpr List.nil_prefix
    have h2 : ([] : List Char).isPrefixOf x = true :=
      List.isPrefixOf_iff_prefix.mpr List.nil_prefix
    rw [h1, h2]
  | cons c cs ih =>
    cases x with
    | nil => simp at h
    | cons d ds =>
      simp only [List.cons_append, List.isPrefixOf]
      rw [show ds.append r = ds ++ r from rfl, ih (by simpa using h)]

/-- No occurrence of `sep` starts strictly inside `a` when `a` is followed by
`r`. -/
def noOccAt (sep a r : List Char) : Prop :=
  ∀ i < a.length, ¬ (sep.isPrefixOf ((a ++ r).drop i) = true)

instance (sep a r : List Char) : Decidable (noOccAt sep a r) := by
  unfold noOccAt; infer_instance

theorem drop_append_of_lt {a r : List Char} {i : Nat} (h : i < a.length) :
    (a ++ r).drop i = a.drop i ++ r := by
  rw [List.drop_append_eq_append_drop, Nat.sub_eq_zero_of_le (Nat.le_of_lt h),
    List.drop_zero]

theorem noOccAt_of_head_notMem {sep a r : List Char} {ch : Char}
    (hh : sep.head? = some ch) (ha : ch ∉ a) : noOccAt sep a r := by
  intro i hi hpre
  cases sep with
  | nil => simp at hh
  | cons c cs =>
    have hc : c = ch := by simpa using hh
    rw [drop_append_of_lt hi, List.drop_eq_getElem_cons hi] at hpre
    simp only [List.cons_append, List.isPrefixOf, Bool.and_eq_true, beq_iff_eq] at hpre
    exact ha (hc ▸ hpre.1 ▸ List.getElem_mem hi)

theorem noOccAt_append {sep a₁ a₂ r : List Char}
    (h₁ : noOccAt sep a₁ (a₂ ++ r)) (h₂ : noOccAt sep a₂ r) :
    noOccAt sep (a₁ ++ a₂) r := by
  intro i hi
  rw [List.append_assoc]
  by_cases hlt : i < a₁.length
  · exact h₁ i hlt
  · have hj : i - a₁.length < a₂.length := by
      simp only [List.length_append] at hi
      omega
    intro hpre
    rw [List.drop_append_eq_append_drop, List.drop_eq_nil_of_le (by omega),
      List.nil_append] at hpre
    exact h₂ (i - a₁.length) hj hpre

/-- Workhorse for regions followed by a known block `t` at least
`sep.length - 1` long: the no-occurrence condition is decidable from
`a ++ t` alone. -/
theorem noOccAt_of_block {sep a t : List Char} (r : List Char) (hsep : sep ≠ [])
    (ht : sep.length - 1 ≤ t.length)
    (chk : ∀ i < a.length, sep.isPrefixOf ((a ++ t).drop i) = false) :
    noOccAt sep a (t ++ r) := by
  intro i hi hpre
  rw [drop_append_of_lt hi, ← List.append_assoc] at hpre
  have hlen : sep.length ≤ (a.drop i ++ t).length := by
    have h0 : 0 < sep.length := List.length_pos.mpr hsep
    simp only [List.length_append, List.length_drop]
    omega
  rw [isPrefixOf_append_of_le r hlen, ← drop_append_of_lt hi] at hpre
  rw [chk i hi] at hpre
  exact Bool.false_ne_true hpre

/-- Workhorse for wholly-known regions: every position where the head of
`sep` occurs either fails the prefix test inside `a` or would overrun `a`. -/
theorem noOccAt_of_inner {sep a : List Char} (r : List Char) {ch : Char}
    (hh : sep.head? = some ch)
    (chk : ∀ i, (hi : i < a.length) → a[i] = ch →
      sep.isPrefixOf (a.drop i) = false ∧ i + sep.length ≤ a.length) :
    noOccAt sep a r := by
  intro i hi hpre
  cases sep with
  | nil => simp at hh
  | cons c cs =>
    have hc : c = ch := by simpa using hh
    rw [drop_append_of_lt hi] at hpre
    by_cases hha : a[i] = ch
    · obtain ⟨hfail, hlen⟩ := chk i hi hha
      have hlen' : (c :: cs).length ≤ (a.drop i).length := by
        simp only [List.length_drop, List.length_cons]
        simp only [List.length_cons] at hlen
        omega
      rw [isPrefixOf_append_of_le r hlen'] at hpre
      rw [hfail] at hpre
      exact Bool.false_ne_true hpre
    · rw [List.drop_eq_getElem_cons hi] at hpre
      simp only [List.cons_append, List.isPrefixOf, Bool.and_eq_true, beq_iff_eq] at hpre
      exact hha (hpre.1 ▸ hc)

theorem findSplit_append {sep a b : List Char} (hsep : sep ≠ [])
    (h : noOccAt sep a (sep ++ b)) :
    findSplit sep (a ++ (sep ++ b)) = some (a, b) := by
  induction a with
  | nil =>
    cases sep with
    | nil => exact absurd rfl hsep
    | cons c cs =>
      simp only [List.nil_append]
      rw [List.cons_append, findSplit]
      have hp : (c :: cs).isPrefixOf (c :: (cs ++ b)) = true :=
        isPrefixOf_append_self (c :: cs) b
      rw [if_pos hp]
      have hd : (c :: (cs ++ b)).drop (c :: cs).length = b := by
        simp only [List.length_cons, List.drop_succ_cons]
        exact List.drop_left cs b
      rw [hd]
  | cons c a' ih =>
    rw [List.cons_append, findSplit]
    have hnp : ¬ (sep.isPrefixOf (c :: (a' ++ (sep ++ b))) = true) := by
      have := h 0 (by simp)
      simp only [List.drop_zero, List.cons_append] at this
      exact this
    rw [if_neg hnp]
    have ih' : findSplit sep (a' ++ (sep ++ b)) = some (a', b) := by
      apply ih
      intro i hi hpre
      have hmem := h (i + 1) (by simpa using Nat.succ_lt_succ hi)
      apply hmem
      simp only [List.cons_append, List.drop_succ_cons]
      exact hpre
    rw [ih']

theorem findSplit_none_of_noOccAt {sep s : List Char} (hsep : sep ≠ [])
    (h : noOccAt sep s []) : findSplit sep s = none := by
  rw [findSplit_none_iff hsep]
  intro hinf
  obtain ⟨t₁, t₂, ht⟩ := hinf
  have hi : t₁.length < s.length := by
    have h0 : 0 < sep.length := List.length_pos.mpr hsep
    rw [← ht]
    simp only [List.length_append]
    omega
  apply h t₁.length hi
  rw [List.append_nil, ← ht]
  rw [List.append_assoc, List.drop_left]
  exact isPrefixOf_append_self sep t₂

theorem splitOnF_congr {sep : List Char} (hsep : sep ≠ []) :
    ∀ (f₁ : Nat) (s : List Char) (f₂ : Nat), s.length ≤ f₁ → s.length ≤ f₂ →
      splitOnF sep f₁ s = splitOnF sep f₂ s := by
  intro f₁
  induction f₁ with
  | zero =>
    intro s f₂ h1 _
    have hs : s = [] := List.length_eq_zero.mp (Nat.le_zero.mp h1)
    subst hs
    cases f₂ with
    | zero => rfl
    | succ g => simp [splitOnF, findSplit]
  | succ f ih =>
    intro s f₂ h1 h2
    cases f₂ with
    | zero =>
      have hs : s = [] := List.length_eq_zero.mp (Nat.le_zero.mp h2)
      subst hs
      simp [splitOnF, findSplit]
    | succ g =>
      simp only [splitOnF]
      cases hfs : findSplit sep s with
      | none => rfl
      | some pr =>
        obtain ⟨pre, post⟩ := pr
        have hlt := findSplit_length hsep hfs
        show pre :: splitOnF sep f post = pre :: splitOnF sep g post
        rw [ih post g (by omega) (by omega)]

theorem splitOnL_cons {sep a b : List Char} (hsep : sep ≠ [])
    (h : noOccAt sep a (sep ++ b)) :
    splitOnL sep (a ++ (sep ++ b)) = a :: splitOnL sep b := by
  unfold splitOnL
  have hsl : 0 < sep.length := List.length_pos.mpr hsep
  have hpos : (a ++ (sep ++ b)).length ≠ 0 := by
    simp only [List.length_append]
    omega
  obtain ⟨k, hk⟩ := Nat.exists_eq_succ_of_ne_zero hpos
  rw [hk]
  rw [splitOnF, findSplit_append hsep h]
  show a :: splitOnF sep k b = a :: splitOnF sep b.length b
  congr 1
  apply splitOnF_congr hsep
  · have : (a ++ (sep ++ b)).length = a.length + (sep.length + b.length) := by
      simp [List.length_append]
    omega
  · exact le_refl _

theorem splitOnL_single {sep s : List Char} (hfs : findSplit sep s = none) :
    splitOnL sep s = [s] := by
  unfold splitOnL
  cases hL : s.length with
  | zero => rfl
  | succ k => simp [splitOnF, hfs]

theorem replaceF_of_none {pat rep s : List Char} (hfs : findSplit pat s = none) :
    ∀ f, replaceF pat rep f s = s := by
  intro f
  cases f with
  | zero => rfl
  | succ g => simp [replaceF, hfs]

theorem replaceL_strip {pat rep rest : List Char} (hpat : pat ≠ [])
    (hfs : findSplit pat rest = none) :
    replaceL pat rep (pat ++ rest) = rep ++ rest := by
  unfold replaceL
  have hpos : (pat ++ rest).length ≠ 0 := by
    have : 0 < pat.length := List.length_pos.mpr hpat
    simp only [List.length_append]
    omega
  obtain ⟨k, hk⟩ := Nat.exists_eq_succ_of_ne_zero hpos
  rw [hk]
  have hself : findSplit pat (pat ++ rest) = some ([], rest) := by
    have h0 : noOccAt pat ([] : List Char) (pat ++ rest) := by
      intro i hi
      simp at hi
    have := findSplit_append (a := []) (b := rest) hpat h0
    simpa using this
  rw [replaceF, hself]
  show [] ++ rep ++ replaceF pat rep k rest = rep ++ rest
  rw [replaceF_of_none hfs]
  simp

/-! ## Lemmas about strip, join and whitespace splitting -/

theorem dropTrail_length_le (p : Char → Bool) (s : List Char) :
    (dropTrail p s).length ≤ s.length := by
  unfold dropTrail
  calc ((s.reverse.dropWhile p).reverse).length
      = (s.reverse.dropWhile p).length := List.length_reverse _
    _ ≤ s.reverse.length := (List.dropWhile_sublist p).length_le
    _ = s.length := List.length_reverse _

theorem trimmed_dropWhile {s : List Char} (h : trimL s = s) :
    s.dropWhile isWsChar = s := by
  have h1 : (s.dropWhile isWsChar).length ≤ s.length := (List.dropWhile_sublist _).length_le
  have h2 : s.length ≤ (s.dropWhile isWsChar).length := by
    conv_lhs => rw [← h]
    exact dropTrail_length_le _ _
  exact (List.dropWhile_suffix isWsChar).eq_of_length (Nat.le_antisymm h1 h2)

theorem trimmed_dropTrail {s : List Char} (h : trimL s = s) :
    dropTrail isWsChar s = s := by
  have := h
  unfold trimL at this
  rw [trimmed_dropWhile h] at this
  exact this

theorem trimmed_reverse_dropWhile {s : List Char} (h : trimL s = s) :
    s.reverse.dropWhile isWsChar = s.reverse := by
  have h1 := trimmed_dropTrail h
  unfold dropTrail at h1
  have := congrArg List.reverse h1
  rwa [List.reverse_reverse] at this

theorem dropWhile_cons_of_neg {p : Char → Bool} {c : Char} (cs : List Char)
    (h : p c = false) : (c :: cs).dropWhile p = c :: cs := by
  simp [List.dropWhile_cons, h]

theorem trimmed_head_not_ws {c : Char} {tl : List Char}
    (h : trimL (c :: tl) = c :: tl) : isWsChar c = false := by
  have hd := trimmed_dropWhile h
  by_contra hc
  have hc' : isWsChar c = true := by
    cases hins : isWsChar c with
    | false => exact absurd hins hc
    | true => rfl
  rw [List.dropWhile_cons, hc'] at hd
  simp only [if_true] at hd
  have := congrArg List.length hd
  have hle := (List.dropWhile_sublist (l := tl) isWsChar).length_le
  simp only [List.length_cons] at this
  omega

/-- Stripping `prompt ++ "\n"` recovers a stripped `prompt` (how the prompt
paragraph comes back out of a rendered document). -/
theorem trimL_append_newline {p : List Char} (h : trimL p = p) :
    trimL (p ++ ['\n']) = p := by
  cases p with
  | nil => rfl
  | cons c tl =>
    have hc : isWsChar c = false := trimmed_head_not_ws h
    unfold trimL
    rw [List.cons_append, dropWhile_cons_of_neg _ hc]
    unfold dropTrail
    rw [show c :: (tl ++ ['\n']) = (c :: tl) ++ ['\n'] by simp]
    rw [List.reverse_append]
    simp only [List.reverse_singleton, List.singleton_append]
    rw [List.dropWhile_cons]
    have hnl : isWsChar '\n' = true := rfl
    rw [hnl]
    simp only [if_true]
    rw [trimmed_reverse_dropWhile h, List.reverse_reverse]

theorem trimL_eq_self_of_parts {s : List Char}
    (h1 : s.dropWhile isWsChar = s)
    (h2 : s.reverse.dropWhile isWsChar = s.reverse) : trimL s = s := by
  unfold trimL dropTrail
  rw [h1, h2, List.reverse_reverse]

theorem joinSepL_concat (sep : List Char) :
    ∀ (l : List (List Char)) (x : List Char),
      joinSepL sep (l ++ [x]) =
        if l = [] then x else joinSepL sep l ++ (sep ++ x) := by
  intro l
  induction l with
  | nil => intro x; simp [joinSepL]
  | cons a l' ih =>
    intro x
    rw [if_neg (by simp)]
    cases l' with
    | nil =>
      show joinSepL sep [a, x] = joinSepL sep [a] ++ (sep ++ x)
      rw [show joinSepL sep [a, x] = a ++ sep ++ joinSepL sep [x] from rfl]
      rw [show joinSepL sep [x] = x from rfl, show joinSepL sep [a] = a from rfl]
      simp [List.append_assoc]
    | cons b l'' =>
      have ih' : joinSepL sep (b :: (l'' ++ [x])) = joinSepL sep (b :: l'') ++ (sep ++ x) := by
        have hix := ih x
        rwa [if_neg (by simp)] at hix
      calc joinSepL sep ((a :: b :: l'') ++ [x])
          = a ++ sep ++ joinSepL sep (b :: (l'' ++ [x])) := rfl
        _ = a ++ sep ++ (joinSepL sep (b :: l'') ++ (sep ++ x)) := by rw [ih']
        _ = (a ++ sep ++ joinSepL sep (b :: l'')) ++ (sep ++ x) := by
              simp [List.append_assoc]
        _ = joinSepL sep (a :: b :: l'') ++ (sep ++ x) := rfl

theorem mem_joinSepL {sep : List Char} {c : Char} :
    ∀ {l : List (List Char)}, c ∈ joinSepL sep l → c ∈ sep ∨ ∃ x ∈ l, c ∈ x := by
  intro l
  induction l with
  | nil => intro h; simp [joinSepL] at h
  | cons a l' ih =>
    intro h
    cases l' with
    | nil =>
      simp only [joinSepL] at h
      exact Or.inr ⟨a, by simp, h⟩
    | cons b l'' =>
      rw [show joinSepL sep (a :: (b :: l'')) = a ++ sep ++ joinSepL sep (b :: l'') from rfl]
        at h
      simp only [List.mem_append] at h
      rcases h with (ha | hsep) | hrest
      · exact Or.inr ⟨a, by simp, ha⟩
      · exact Or.inl hsep
      · rcases ih hrest with h | ⟨x, hx, hcx⟩
        · exact Or.inl h
        · exact Or.inr ⟨x, by simp [hx], hcx⟩

theorem splitPredL_ne_nil (p : Char → Bool) (s : List Char) : splitPredL p s ≠ [] := by
  cases s with
  | nil => simp [splitPredL]
  | cons c cs =>
    rw [splitPredL]
    cases splitPredL p cs with
    | nil => simp
    | cons h t =>
      by_cases hp : p c
      · simp [hp]
      · simp [hp]

theorem splitPredL_append_of_clean {p : Char → Bool} :
    ∀ (x r : List Char), (∀ c ∈ x, p c = false) →
      ∃ h t, splitPredL p r = h :: t ∧ splitPredL p (x ++ r) = (x ++ h) :: t := by
  intro x
  induction x with
  | nil =>
    intro r _
    cases hs : splitPredL p r with
    | nil => exact absurd hs (splitPredL_ne_nil p r)
    | cons h t => exact ⟨h, t, rfl, by simpa using hs⟩
  | cons c x' ih =>
    intro r hclean
    obtain ⟨h, t, hr, hx⟩ := ih r (fun d hd => hclean d (by simp [hd]))
    refine ⟨h, t, hr, ?_⟩
    rw [List.cons_append, splitPredL, hx]
    have hc : p c = false := hclean c (by simp)
    simp [hc]

theorem splitPredL_cons_of_sep {p : Char → Bool} {c : Char} (r : List Char)
    (h : p c = true) : splitPredL p (c :: r) = [] :: splitPredL p r := by
  rw [splitPredL]
  cases hs : splitPredL p r with
  | nil => exact absurd hs (splitPredL_ne_nil p r)
  | cons hh tt => simp [h]

/-- A good token list: every token nonempty and whitespace-free. -/
def goodTokens (toks : List (List Char)) : Prop :=
  ∀ t ∈ toks, t ≠ [] ∧ ∀ c ∈ t, isWsChar c = false

instance (toks : List (List Char)) : Decidable (goodTokens toks) := by
  unfold goodTokens; infer_instance

/-- Splitting a space-joined good token list on whitespace recovers the
tokens (how `relevant_links` survives the round trip). -/
theorem splitWsL_joinSepL {toks : List (List Char)} (h : goodTokens toks) :
    splitWsL (joinSepL [' '] toks) = toks := by
  induction toks with
  | nil => rfl
  | cons t ts ih =>
    obtain ⟨hne, hclean⟩ := h t (by simp)
    cases ts with
    | nil =>
      show splitWsL (joinSepL [' '] [t]) = [t]
      rw [show joinSepL [' '] [t] = t from rfl]
      unfold splitWsL
      obtain ⟨hh, tt, hr, hx⟩ :=
        splitPredL_append_of_clean t [] hclean
      rw [show splitPredL isWsChar [] = [[]] from rfl] at hr
      injection hr with hh0 tt0
      rw [List.append_nil] at hx
      rw [hx, ← hh0, ← tt0, List.append_nil, List.filter_cons,
        if_pos (by simp [hne])]
      rfl
    | cons u ts' =>
      have hsplit : splitPredL isWsChar (joinSepL [' '] (t :: u :: ts'))
          = t :: splitPredL isWsChar (joinSepL [' '] (u :: ts')) := by
        rw [show joinSepL [' '] (t :: u :: ts')
              = t ++ ([' '] ++ joinSepL [' '] (u :: ts')) from by
          rw [show joinSepL [' '] (t :: (u :: ts'))
                = t ++ [' '] ++ joinSepL [' '] (u :: ts') from rfl]
          simp [List.append_assoc]]
        obtain ⟨hh, tt, hr, hx⟩ :=
          splitPredL_append_of_clean t ([' '] ++ joinSepL [' '] (u :: ts')) hclean
        rw [List.singleton_append, splitPredL_cons_of_sep _ (by rfl)] at hr
        injection hr with hh0 tt0
        rw [hx, ← hh0, ← tt0, List.append_nil]
      have ihh := ih (fun x hx₂ => h x (by simp [hx₂]))
      unfold splitWsL at ihh
      unfold splitWsL
      rw [hsplit, List.filter_cons, if_pos (by simp [hne]), ihh]


/-! ## Lemmas about the fuzzy-match loop -/

theorem foldl_fuzzyStep_stay {qwords : List String} :
    ∀ (l : Catalog) (b : Option (String × PersonaRecord)) (m : Nat),
      (∀ kv ∈ l, overlapWords qwords kv.1 ≤ m) →
      l.foldl (fuzzyStep qwords) (b, m) = (b, m) := by
  intro l
  induction l with
  | nil => intro b m _; rfl
  | cons kv l' ih =>
    intro b m h
    rw [List.foldl_cons]
    have hle : overlapWords qwords kv.1 ≤ m := h kv (by simp)
    rw [show fuzzyStep qwords (b, m) kv = (b, m) from by
      unfold fuzzyStep
      rw [if_neg (by omega)]]
    exact ih b m (fun kv₂ hkv => h kv₂ (by simp [hkv]))

theorem foldl_fuzzyStep_first {qwords : List String} :
    ∀ (l₁ : Catalog) (k : String) (r : PersonaRecord) (l₂ : Catalog) (M : Nat)
      (b₀ : Option (String × PersonaRecord)) (m₀ : Nat),
      overlapWords qwords k = M →
      (∀ kv ∈ l₁, overlapWords qwords kv.1 < M) →
      (∀ kv ∈ l₂, overlapWords qwords kv.1 ≤ M) →
      m₀ < M →
      (l₁ ++ (k, r) :: l₂).foldl (fuzzyStep qwords) (b₀, m₀) = (some (k, r), M) := by
  intro l₁
  induction l₁ with
  | nil =>
    intro k r l₂ M b₀ m₀ hk _ h₂ hm
    rw [List.nil_append, List.foldl_cons]
    rw [show fuzzyStep qwords (b₀, m₀) (k, r) = (some (k, r), M) from by
      unfold fuzzyStep
      rw [show overlapWords qwords (k, r).1 = M from hk]
      rw [if_pos (by omega)]]
    exact foldl_fuzzyStep_stay l₂ _ M h₂
  | cons kv₀ l₁' ih =>
    intro k r l₂ M b₀ m₀ hk h₁ h₂ hm
    rw [List.cons_append, List.foldl_cons]
    have hlt : overlapWords qwords kv₀.1 < M := h₁ kv₀ (by simp)
    unfold fuzzyStep
    by_cases hgt : overlapWords qwords kv₀.1 > m₀
    · rw [if_pos hgt]
      exact ih k r l₂ M (some kv₀) _ hk (fun kv hkv => h₁ kv (by simp [hkv])) h₂ hlt
    · rw [if_neg hgt]
      exact ih k r l₂ M b₀ m₀ hk (fun kv hkv => h₁ kv (by simp [hkv])) h₂ hm

theorem fuzzyFold_zero {qwords : List String} {cat : Catalog}
    (h : ∀ kv ∈ cat, overlapWords qwords kv.1 = 0) :
    fuzzyFold qwords cat = (none, 0) := by
  unfold fuzzyFold
  exact foldl_fuzzyStep_stay cat none 0 (fun kv hkv => Nat.le_of_eq (h kv hkv))

/-- Each listed part is a substring of the joined list. -/
theorem infix_joinSepL {sep : List Char} :
    ∀ {l : List (List Char)} {x : List Char}, x ∈ l → x <:+: joinSepL sep l := by
  intro l
  induction l with
  | nil => intro x h; simp at h
  | cons a l' ih =>
    intro x h
    cases l' with
    | nil =>
      have hx : x = a := by simpa using h
      subst hx
      exact List.infix_refl _
    | cons b l'' =>
      rw [show joinSepL sep (a :: b :: l'') = a ++ sep ++ joinSepL sep (b :: l'') from rfl]
      rcases List.mem_cons.mp h with hxa | hmem
      · subst hxa
        exact ((List.prefix_append x (sep ++ joinSepL sep (b :: l''))).isInfix).trans
          (by rw [List.append_assoc])
      · exact ((ih hmem).trans (List.suffix_append (a ++ sep) _).isInfix)

/-! ## Claim theorems: lookup, fuzzy match, not-found, image predicate -/

/-- C6: for a query whose normalized form is an existing catalog key,
`get_persona` returns the stored record with the fixed interaction suffix
appended to its prompt exactly once, while the catalog (and hence the stored
record under that key) is unchanged by the call, so no suffix accumulates
across repeated calls. -/
theorem get_persona_exact_match (cat : Catalog) (dir n : String) (pick : Nat)
    (r : PersonaRecord) (h : lookupC cat (normalizeName n) = some r) :
    (get_persona cat dir (some n) pick).1 = .ok (finishPersona dir (some n) r) ∧
    (finishPersona dir (some n) r).name = r.name ∧
    (finishPersona dir (some n) r).prompt =
      r.prompt ++ PERSONA_INTERACTION_INSTRUCTIONS ∧
    (get_persona cat dir (some n) pick).2 = cat ∧
    lookupC (get_persona cat dir (some n) pick).2 (normalizeName n) = some r := by
  simp only [get_persona]
  rw [h]
  exact ⟨rfl, rfl, rfl, rfl, h⟩

theorem get_persona_exact_match_witness :
    lookupC [("tech_guru", ⟨"Tech Guru", "Advises.", "", "", "", "", [], none⟩)]
        (normalizeName "Tech Guru") =
      some ⟨"Tech Guru", "Advises.", "", "", "", "", [], none⟩ ∧
    ((get_persona [("tech_guru", ⟨"Tech Guru", "Advises.", "", "", "", "", [], none⟩)]
        "personas" (some "Tech Guru") 0).1 =
      .ok (finishPersona "personas" (some "Tech Guru")
        ⟨"Tech Guru", "Advises.", "", "", "", "", [], none⟩) ∧
    (finishPersona "personas" (some "Tech Guru")
        ⟨"Tech Guru", "Advises.", "", "", "", "", [], none⟩).name = "Tech Guru" ∧
    (finishPersona "personas" (some "Tech Guru")
        ⟨"Tech Guru", "Advises.", "", "", "", "", [], none⟩).prompt =
      "Advises." ++ PERSONA_INTERACTION_INSTRUCTIONS ∧
    (get_persona [("tech_guru", ⟨"Tech Guru", "Advises.", "", "", "", "", [], none⟩)]
        "personas" (some "Tech Guru") 0).2 =
      [("tech_guru", ⟨"Tech Guru", "Advises.", "", "", "", "", [], none⟩)] ∧
    lookupC (get_persona [("tech_guru", ⟨"Tech Guru", "Advises.", "", "", "", "", [], none⟩)]
        "personas" (some "Tech Guru") 0).2 (normalizeName "Tech Guru") =
      some ⟨"Tech Guru", "Advises.", "", "", "", "", [], none⟩) :=
  ⟨rfl, get_persona_exact_match _ "personas" "Tech Guru" 0 _ rfl⟩

/-- C5: when the normalized query is not an existing key, the fuzzy fallback
returns the record of the key with the strictly largest word overlap, the
first key in catalog enumeration order winning all ties (a later key with
equal overlap never replaces the running best). -/
theorem get_persona_fuzzy_first_max (cat : Catalog) (dir n : String) (pick : Nat)
    (l₁ l₂ : Catalog) (k : String) (r : PersonaRecord) (M : Nat)
    (hdec : cat = l₁ ++ (k, r) :: l₂)
    (hnk : lookupC cat (normalizeName n) = none)
    (hk : overlapWords (splitWsS (lowerS n)) k = M)
    (hmax : ∀ kv ∈ cat, overlapWords (splitWsS (lowerS n)) kv.1 ≤ M)
    (hfirst : ∀ kv ∈ l₁, overlapWords (splitWsS (lowerS n)) kv.1 < M)
    (hM : 1 ≤ M) :
    (get_persona cat dir (some n) pick).1 = .ok (finishPersona dir (some n) r) := by
  have hff : fuzzyFold (splitWsS (lowerS n)) cat = (some (k, r), M) := by
    unfold fuzzyFold
    subst hdec
    exact foldl_fuzzyStep_first l₁ k r l₂ M none 0 hk hfirst
      (fun kv hkv => hmax kv (by simp [hkv])) (by omega)
  simp only [get_persona]
  rw [hnk, hff]
  simp only [if_pos hM]

theorem get_persona_fuzzy_first_max_witness :
    lookupC [("a_b", ⟨"A B", "pb", "", "", "", "", [], none⟩),
             ("a_c", ⟨"A C", "pc", "", "", "", "", [], none⟩)]
        (normalizeName "a") = none ∧
    overlapWords (splitWsS (lowerS "a")) "a_b" = 1 ∧
    (get_persona [("a_b", ⟨"A B", "pb", "", "", "", "", [], none⟩),
                  ("a_c", ⟨"A C", "pc", "", "", "", "", [], none⟩)]
        "personas" (some "a") 0).1 =
      .ok (finishPersona "personas" (some "a") ⟨"A B", "pb", "", "", "", "", [], none⟩) :=
  ⟨rfl, rfl,
    get_persona_fuzzy_first_max _ "personas" "a" 0
      [] [("a_c", ⟨"A C", "pc", "", "", "", "", [], none⟩)]
      "a_b" ⟨"A B", "pb", "", "", "", "", [], none⟩ 1
      rfl rfl rfl (by decide) (by decide) (by decide)⟩

/-- C9: when the normalized query is not an existing key and no catalog key
shares a word with the query, `get_persona` raises a `KeyError` whose message
lists every valid catalog key (each key occurs in the message, which joins
them all); no record is silently substituted. -/
theorem get_persona_not_found (cat : Catalog) (dir n : String) (pick : Nat)
    (hnk : lookupC cat (normalizeName n) = none)
    (hov : ∀ kv ∈ cat, overlapWords (splitWsS (lowerS n)) kv.1 = 0) :
    (get_persona cat dir (some n) pick).1 =
      .error ("Persona '" ++ n ++ "' not found. Valid options: " ++
        joinSepS ", " (cat.map (·.1))) ∧
    ∀ k ∈ cat.map (·.1),
      k.data <:+: ("Persona '" ++ n ++ "' not found. Valid options: " ++
        joinSepS ", " (cat.map (·.1))).data := by
  constructor
  · simp only [get_persona]
    rw [hnk, fuzzyFold_zero hov]
  · intro k hk
    rw [String.data_append]
    exact (infix_joinSepL (List.mem_map_of_mem String.data hk)).trans
      (List.suffix_append _ _).isInfix

theorem get_persona_not_found_witness :
    lookupC [("x_y", ⟨"X Y", "p", "", "", "", "", [], none⟩)]
        (normalizeName "zz") = none ∧
    ((get_persona [("x_y", ⟨"X Y", "p", "", "", "", "", [], none⟩)]
        "personas" (some "zz") 0).1 =
      .error ("Persona '" ++ "zz" ++ "' not found. Valid options: " ++
        joinSepS ", " ([("x_y", (⟨"X Y", "p", "", "", "", "", [], none⟩ : PersonaRecord))].map (·.1))) ∧
    ∀ k ∈ [("x_y", (⟨"X Y", "p", "", "", "", "", [], none⟩ : PersonaRecord))].map (·.1),
      k.data <:+: ("Persona '" ++ "zz" ++ "' not found. Valid options: " ++
        joinSepS ", " ([("x_y", (⟨"X Y", "p", "", "", "", "", [], none⟩ : PersonaRecord))].map (·.1))).data) :=
  ⟨rfl, get_persona_not_found _ "personas" "zz" 0 rfl (by decide)⟩

/-- C10: `needs_image_upload` is `false` for any key absent from the catalog
(no exception, no upload reported), and for a present key it is `true`
exactly when the stored image is empty or does not contain the hosting
domain as a substring. -/
theorem needs_image_upload_spec (cat : Catalog) (k : String) :
    (lookupC cat k = none → needs_image_upload cat k = false) ∧
    ∀ r, lookupC cat k = some r →
      (needs_image_upload cat k = true ↔
        (r.image = "" ∨ containsSubS r.image "uploadthing.com" = false)) := by
  constructor
  · intro h
    unfold needs_image_upload
    rw [h]
  · intro r h
    unfold needs_image_upload
    rw [h]
    show (!(r.image != "" && containsSubS r.image "uploadthing.com")) = true ↔ _
    constructor
    · intro hb
      by_cases him : r.image = ""
      · exact Or.inl him
      · right
        simp only [Bool.not_eq_true', Bool.and_eq_false_iff, bne_eq_false_iff_eq] at hb
        rcases hb with hb | hb
        · exact absurd hb him
        · exact hb
    · intro hb
      rcases hb with hb | hb
      · simp [hb]
      · simp [hb]

theorem needs_image_upload_spec_witness :
    needs_image_upload ([] : Catalog) "missing" = false ∧
    needs_image_upload
      [("k", ⟨"N", "p", "", "", "", "", [], none⟩)] "k" = true ∧
    needs_image_upload
      [("k", ⟨"N", "p", "https://uploadthing.com/f/abc", "", "", "", [], none⟩)] "k" = false :=
  ⟨(needs_image_upload_spec [] "missing").1 rfl, rfl, rfl⟩


/-! ## Claim theorems: load behaviour and the path field -/

theorem loadDirs_cons_notdir {d : DirEnt} {rest : List DirEnt} {acc : Catalog}
    (h : d.isDir = false) : loadDirs (d :: rest) acc = loadDirs rest acc := by
  simp [loadDirs, h]

theorem loadDirs_cons_noreadme {d : DirEnt} {rest : List DirEnt} {acc : Catalog}
    (h : d.isDir = true) (h2 : readmeOf d = none) :
    loadDirs (d :: rest) acc = loadDirs rest acc := by
  simp [loadDirs, h, h2]

theorem loadDirs_cons_badparse {d : DirEnt} {rest : List DirEnt} {acc : Catalog}
    {c : String} (h : d.isDir = true) (h2 : readmeOf d = some c)
    (h3 : parse_readme c = none) :
    loadDirs (d :: rest) acc = .error "list index out of range" := by
  simp [loadDirs, h, h2, h3]

theorem loadDirs_cons_ok {d : DirEnt} {rest : List DirEnt} {acc : Catalog}
    {c : String} {r : PersonaRecord} (h : d.isDir = true) (h2 : readmeOf d = some c)
    (h3 : parse_readme c = some r) :
    loadDirs (d :: rest) acc = loadDirs rest (upsertC acc d.name (recordFor r d)) := by
  simp [loadDirs, h, h2, h3]

theorem loadDirs_error :
    ∀ (dirs : List DirEnt) (acc : Catalog),
      (∃ d ∈ dirs, d.isDir = true ∧ ∃ c, readmeOf d = some c ∧ parse_readme c = none) →
      ∃ e, loadDirs dirs acc = .error e := by
  intro dirs
  induction dirs with
  | nil =>
    intro acc h
    obtain ⟨d, hd, _⟩ := h
    simp at hd
  | cons d rest ih =>
    intro acc h
    obtain ⟨d', hd', hdir, c, hrm, hpc⟩ := h
    rcases List.mem_cons.mp hd' with hhd | htl
    · subst hhd
      exact ⟨_, loadDirs_cons_badparse hdir hrm hpc⟩
    · cases hdir₀ : d.isDir with
      | false =>
        rw [loadDirs_cons_notdir hdir₀]
        exact ih acc ⟨d', htl, hdir, c, hrm, hpc⟩
      | true =>
        cases hrm₀ : readmeOf d with
        | none =>
          rw [loadDirs_cons_noreadme hdir₀ hrm₀]
          exact ih acc ⟨d', htl, hdir, c, hrm, hpc⟩
        | some c₂ =>
          cases hpc₀ : parse_readme c₂ with
          | none => exact ⟨_, loadDirs_cons_badparse hdir₀ hrm₀ hpc₀⟩
          | some r =>
            rw [loadDirs_cons_ok hdir₀ hrm₀ hpc₀]
            exact ih _ ⟨d', htl, hdir, c, hrm, hpc⟩

/-- C1 (amended): a subdirectory whose document has a title but no
blank-line gap makes the whole load fail — the parse exception escapes the
single `try` wrapping the directory loop, is logged and re-raised, so no
mapping is returned at all (well-formed sibling directories included); a
root-enumeration failure likewise propagates.  Only directories that are not
directories or lack a README are skipped. -/
theorem load_personas_parse_failure_fatal (dirs : List DirEnt)
    (h : ∃ d ∈ dirs, d.isDir = true ∧ ∃ c, readmeOf d = some c ∧ parse_readme c = none) :
    (∃ e, load_personas (.ok dirs) = .error e) ∧
    (∀ msg, load_personas (.error msg) = .error msg) :=
  ⟨loadDirs_error dirs [] h, fun _ => rfl⟩

/-- C1 counterexample: with one malformed directory (title, no blank-line
gap) and one well-formed one, the claim says the load completes and the
well-formed record is present; the code instead aborts with the propagated
`IndexError`, returning no mapping. -/
theorem load_personas_counterexample_C1 :
    load_personas (.ok
      [⟨"bad", true, [("README.md", "# T\nno gap")]⟩,
       ⟨"good", true, [("README.md", "# G\n\np")]⟩]) =
      .error "list index out of range" := rfl

theorem load_personas_parse_failure_fatal_witness :
    (∃ d ∈ [(⟨"bad", true, [("README.md", "# T\nno gap")]⟩ : DirEnt)],
      d.isDir = true ∧ ∃ c, readmeOf d = some c ∧ parse_readme c = none) ∧
    ((∃ e, load_personas (.ok [(⟨"bad", true, [("README.md", "# T\nno gap")]⟩ : DirEnt)]) =
        .error e) ∧
     ∀ msg, load_personas (.error msg) = .error msg) := by
  have hbad : ∃ d ∈ [(⟨"bad", true, [("README.md", "# T\nno gap")]⟩ : DirEnt)],
      d.isDir = true ∧ ∃ c, readmeOf d = some c ∧ parse_readme c = none :=
    ⟨⟨"bad", true, [("README.md", "# T\nno gap")]⟩, by simp,
      rfl, "# T\nno gap", rfl, rfl⟩
  exact ⟨hbad, load_personas_parse_failure_fatal _ hbad⟩

/-- The entry `load_personas` stores for a directory that parses: the parse
result keyed by the directory name, with additional content attached. -/
def parsedEntry (d : DirEnt) : Option (String × PersonaRecord) :=
  if d.isDir then
    (readmeOf d).bind fun c => (parse_readme c).map fun r => (d.name, recordFor r d)
  else none

theorem upsertC_fresh {acc : Catalog} {k : String} {v : PersonaRecord}
    (h : ∀ kv ∈ acc, kv.1 ≠ k) : upsertC acc k v = acc ++ [(k, v)] := by
  unfold upsertC
  rw [if_neg]
  intro hany
  rw [List.any_eq_true] at hany
  obtain ⟨kv, hkv, hbeq⟩ := hany
  exact h kv hkv (by simpa using hbeq)

theorem loadDirs_all :
    ∀ (dirs : List DirEnt) (acc : Catalog),
      (∀ d ∈ dirs, d.isDir = true → ∀ c, readmeOf d = some c → (parse_readme c).isSome) →
      (dirs.map DirEnt.name).Nodup →
      (∀ d ∈ dirs, ∀ kv ∈ acc, kv.1 ≠ d.name) →
      loadDirs dirs acc = .ok (acc ++ dirs.filterMap parsedEntry) := by
  intro dirs
  induction dirs with
  | nil => intro acc _ _ _; simp [loadDirs]
  | cons d rest ih =>
    intro acc hok hnd hfresh
    have hnd' : (DirEnt.name d :: rest.map DirEnt.name).Nodup := by simpa using hnd
    have hnodup := List.nodup_cons.mp hnd'
    cases hdir : d.isDir with
    | false =>
      rw [loadDirs_cons_notdir hdir]
      rw [ih acc (fun d₂ h₂ => hok d₂ (by simp [h₂])) hnodup.2
        (fun d₂ h₂ => hfresh d₂ (by simp [h₂]))]
      have hpe : parsedEntry d = none := by simp [parsedEntry, hdir]
      rw [List.filterMap_cons, hpe]
    | true =>
      cases hrm : readmeOf d with
      | none =>
        rw [loadDirs_cons_noreadme hdir hrm]
        rw [ih acc (fun d₂ h₂ => hok d₂ (by simp [h₂])) hnodup.2
          (fun d₂ h₂ => hfresh d₂ (by simp [h₂]))]
        have hpe : parsedEntry d = none := by simp [parsedEntry, hdir, hrm]
        rw [List.filterMap_cons, hpe]
      | some c =>
        have hps := hok d (by simp) hdir c hrm
        cases hpr : parse_readme c with
        | none => rw [hpr] at hps; simp at hps
        | some r =>
          rw [loadDirs_cons_ok hdir hrm hpr]
          have hup : upsertC acc d.name (recordFor r d) = acc ++ [(d.name, recordFor r d)] :=
            upsertC_fresh (fun kv hkv => hfresh d (by simp) kv hkv)
          rw [hup]
          rw [ih (acc ++ [(d.name, recordFor r d)])
            (fun d₂ h₂ => hok d₂ (by simp [h₂]))
            hnodup.2
            (by
              intro d₂ h₂ kv hkv
              rcases List.mem_append.mp hkv with hin | hone
              · exact hfresh d₂ (by simp [h₂]) kv hin
              · have : kv = (d.name, recordFor r d) := by simpa using hone
                subst this
                show d.name ≠ d₂.name
                intro heq
                exact hnodup.1 (heq ▸ List.mem_map_of_mem DirEnt.name h₂))]
          have hpe : parsedEntry d = some (d.name, recordFor r d) := by
            simp [parsedEntry, hdir, hrm, hpr]
          rw [List.filterMap_cons, hpe]
          simp [List.append_assoc]

/-- C2 (amended): after a successful load every stored record is exactly the
parse result of its directory's document (with additional content attached);
the loader performs no well-formedness check, so records whose `name` or
`prompt` is the empty string are inserted like any other. -/
theorem load_personas_stores_parse_results (dirs : List DirEnt)
    (hok : ∀ d ∈ dirs, d.isDir = true → ∀ c, readmeOf d = some c →
      (parse_readme c).isSome)
    (hnd : (dirs.map DirEnt.name).Nodup) :
    load_personas (.ok dirs) = .ok (dirs.filterMap parsedEntry) := by
  unfold load_personas
  exact loadDirs_all dirs [] hok hnd (by simp)

/-- C2 counterexample: the document `"# Bob\n\n"` has a title and a
blank-line gap but an empty prompt paragraph; the claim says such a record
is never inserted, yet the load stores it under its directory key with
`prompt = ""`. -/
theorem load_personas_counterexample_C2 :
    load_personas (.ok [⟨"bob", true, [("README.md", "# Bob\n\n")]⟩]) =
      .ok [("bob", ⟨"Bob", "", "", "", "", "", [], none⟩)] ∧
    (⟨"Bob", "", "", "", "", "", [], none⟩ : PersonaRecord).prompt = "" :=
  ⟨rfl, rfl⟩

theorem load_personas_stores_parse_results_witness :
    (∀ d ∈ [(⟨"bob", true, [("README.md", "# Bob\n\n")]⟩ : DirEnt)],
      d.isDir = true → ∀ c, readmeOf d = some c → (parse_readme c).isSome) ∧
    ([(⟨"bob", true, [("README.md", "# Bob\n\n")]⟩ : DirEnt)].map DirEnt.name).Nodup ∧
    load_personas (.ok [(⟨"bob", true, [("README.md", "# Bob\n\n")]⟩ : DirEnt)]) =
      .ok ([(⟨"bob", true, [("README.md", "# Bob\n\n")]⟩ : DirEnt)].filterMap parsedEntry) := by
  have hok : ∀ d ∈ [(⟨"bob", true, [("README.md", "# Bob\n\n")]⟩ : DirEnt)],
      d.isDir = true → ∀ c, readmeOf d = some c → (parse_readme c).isSome := by
    intro d hd _ c hc
    have hd' : d = (⟨"bob", true, [("README.md", "# Bob\n\n")]⟩ : DirEnt) := by
      simpa using hd
    subst hd'
    rw [show readmeOf (⟨"bob", true, [("README.md", "# Bob\n\n")]⟩ : DirEnt) =
          some "# Bob\n\n" from rfl] at hc
    injection hc with hc'
    subst hc'
    rfl
  exact ⟨hok, by simp,
    load_personas_stores_parse_results _ hok (by simp)⟩

/-- C3 (amended): whenever `get_persona` succeeds, the returned `path` is
the personas root joined with the **normalized query** (or, with no query,
the normalized `name` of the randomly chosen record) — which coincides with
the resolved catalog key only on the exact-match path, not on the fuzzy or
random paths. -/
theorem get_persona_some_found {cat : Catalog} {dir n : String} {pick : Nat}
    {r : PersonaRecord} (h : lookupC cat (normalizeName n) = some r) :
    get_persona cat dir (some n) pick = (.ok (finishPersona dir (some n) r), cat) := by
  simp [get_persona, h]

theorem get_persona_some_fuzzy {cat : Catalog} {dir n : String} {pick : Nat}
    {kv : String × PersonaRecord} {mx : Nat}
    (h : lookupC cat (normalizeName n) = none)
    (hf : fuzzyFold (splitWsS (lowerS n)) cat = (some kv, mx)) (hge : mx ≥ 1) :
    get_persona cat dir (some n) pick = (.ok (finishPersona dir (some n) kv.2), cat) := by
  simp [get_persona, h, hf, hge]

theorem get_persona_some_lowmax {cat : Catalog} {dir n : String} {pick : Nat}
    {kv : String × PersonaRecord} {mx : Nat}
    (h : lookupC cat (normalizeName n) = none)
    (hf : fuzzyFold (splitWsS (lowerS n)) cat = (some kv, mx)) (hge : ¬ mx ≥ 1) :
    get_persona cat dir (some n) pick =
      (.error ("Persona '" ++ n ++ "' not found. Valid options: " ++
        joinSepS ", " (cat.map (·.1))), cat) := by
  simp [get_persona, h, hf, hge]

theorem get_persona_some_nobest {cat : Catalog} {dir n : String} {pick : Nat}
    {m : Nat} (h : lookupC cat (normalizeName n) = none)
    (hf : fuzzyFold (splitWsS (lowerS n)) cat = (none, m)) :
    get_persona cat dir (some n) pick =
      (.error ("Persona '" ++ n ++ "' not found. Valid options: " ++
        joinSepS ", " (cat.map (·.1))), cat) := by
  simp [get_persona, h, hf]

theorem get_persona_none_pick {cat : Catalog} {dir : String} {pick : Nat}
    {kv : String × PersonaRecord} (hg : cat[pick]? = some kv) :
    get_persona cat dir none pick = (.ok (finishPersona dir none kv.2), cat) := by
  simp [get_persona, hg]

theorem get_persona_none_empty {cat : Catalog} {dir : String} {pick : Nat}
    (hg : cat[pick]? = none) :
    get_persona cat dir none pick = (.error "Cannot choose from an empty sequence", cat) := by
  simp [get_persona, hg]

theorem get_persona_path_uses_query (cat : Catalog) (dir : String)
    (query : Option String) (pick : Nat) (out : PersonaOut)
    (h : (get_persona cat dir query pick).1 = .ok out) :
    out.path = dir ++ "/" ++ (match query with
      | some n => normalizeName n
      | none => normalizeName out.name) := by
  cases query with
  | some n =>
    cases hl : lookupC cat (normalizeName n) with
    | some r =>
      rw [get_persona_some_found hl] at h
      simp only [Except.ok.injEq] at h
      subst h
      rfl
    | none =>
      cases hf : fuzzyFold (splitWsS (lowerS n)) cat with
      | mk best mx =>
        cases best with
        | some kv =>
          by_cases hge : mx ≥ 1
          · rw [get_persona_some_fuzzy hl hf hge] at h
            simp only [Except.ok.injEq] at h
            subst h
            rfl
          · rw [get_persona_some_lowmax hl hf hge] at h
            simp at h
        | none =>
          rw [get_persona_some_nobest hl hf] at h
          simp at h
  | none =>
    cases hg : cat[pick]? with
    | some kv =>
      rw [get_persona_none_pick hg] at h
      simp only [Except.ok.injEq] at h
      subst h
      rfl
    | none =>
      rw [get_persona_none_empty hg] at h
      simp at h

/-- C3 counterexample: with the single catalog key `"a_b"`, the query `"a"`
resolves through the fuzzy path to the record stored under `"a_b"`, yet the
returned `path` joins the root with `"a"` (the normalized query), not with
the resolved key `"a_b"`. -/
theorem get_persona_path_counterexample :
    (get_persona [("a_b", ⟨"A B", "p", "", "", "", "", [], none⟩)]
        "personas" (some "a") 0).1 =
      .ok (finishPersona "personas" (some "a") ⟨"A B", "p", "", "", "", "", [], none⟩) ∧
    (finishPersona "personas" (some "a") ⟨"A B", "p", "", "", "", "", [], none⟩).path =
      "personas/a" ∧
    "personas/a" ≠ "personas" ++ "/" ++ "a_b" :=
  ⟨rfl, rfl, by decide⟩

theorem get_persona_path_uses_query_witness :
    (get_persona [("a_b", ⟨"A B", "p", "", "", "", "", [], none⟩)]
        "personas" (some "a") 0).1 =
      .ok (finishPersona "personas" (some "a") ⟨"A B", "p", "", "", "", "", [], none⟩) ∧
    (finishPersona "personas" (some "a") ⟨"A B", "p", "", "", "", "", [], none⟩).path =
      "personas" ++ "/" ++ normalizeName "a" :=
  ⟨rfl,
    get_persona_path_uses_query
      [("a_b", ⟨"A B", "p", "", "", "", "", [], none⟩)] "personas" (some "a") 0
      (finishPersona "personas" (some "a") ⟨"A B", "p", "", "", "", "", [], none⟩) rfl⟩


/-! ## Round-trip machinery: straddle helpers -/

theorem prefix_step {a b : Char} {l₁ l₂ : List Char}
    (h : (a :: l₁).isPrefixOf (b :: l₂) = true) : a = b ∧ l₁.isPrefixOf l₂ = true := by
  have h' : ((a == b) && l₁.isPrefixOf l₂) = true := h
  simp only [Bool.and_eq_true, beq_iff_eq] at h'
  exact h'

theorem prefix_build {a b : Char} {l₁ l₂ : List Char} (h1 : a = b)
    (h2 : l₁.isPrefixOf l₂ = true) : (a :: l₁).isPrefixOf (b :: l₂) = true := by
  show ((a == b) && l₁.isPrefixOf l₂) = true
  simp [h1, h2]

theorem isPrefixOf_nil_left (l : List Char) : ([] : List Char).isPrefixOf l = true :=
  List.isPrefixOf_iff_prefix.mpr List.nil_prefix

theorem sharp2_not_prefix_mid {x : List Char} {d : Char} (r : List Char)
    (h : ¬ ("## ".data.isPrefixOf (x ++ [d]) = true)) (hd : d ≠ '#') :
    ¬ ("## ".data.isPrefixOf (x ++ d :: r) = true) := by
  match x with
  | [] =>
    intro hpre
    have hpre' : ('#' :: '#' :: [' ']).isPrefixOf (d :: r) = true := hpre
    exact hd (prefix_step hpre').1.symm
  | [a] =>
    intro hpre
    have hpre' : ('#' :: '#' :: [' ']).isPrefixOf (a :: d :: r) = true := hpre
    exact hd (prefix_step (prefix_step hpre').2).1.symm
  | [a, b] =>
    intro hpre
    apply h
    have hpre' : ('#' :: '#' :: [' ']).isPrefixOf (a :: b :: d :: r) = true := hpre
    obtain ⟨h1, hp1⟩ := prefix_step hpre'
    obtain ⟨h2, hp2⟩ := prefix_step hp1
    obtain ⟨h3, _⟩ := prefix_step hp2
    show ('#' :: '#' :: [' ']).isPrefixOf (a :: b :: [d]) = true
    exact prefix_build h1 (prefix_build h2 (prefix_build h3 (isPrefixOf_nil_left [])))
  | a :: b :: c :: x' =>
    intro hpre
    apply h
    have hpre' : ('#' :: '#' :: [' ']).isPrefixOf (a :: b :: c :: (x' ++ d :: r)) = true := hpre
    obtain ⟨h1, hp1⟩ := prefix_step hpre'
    obtain ⟨h2, hp2⟩ := prefix_step hp1
    obtain ⟨h3, _⟩ := prefix_step hp2
    show ('#' :: '#' :: [' ']).isPrefixOf (a :: b :: c :: (x' ++ [d])) = true
    exact prefix_build h1 (prefix_build h2 (prefix_build h3 (isPrefixOf_nil_left _)))

theorem sharp2_not_prefix_snoc_nl {p : List Char}
    (h : ¬ ("## ".data.isPrefixOf p = true)) :
    ¬ ("## ".data.isPrefixOf (p ++ ['\n']) = true) := by
  match p with
  | [] =>
    intro hpre
    have hpre' : ('#' :: '#' :: [' ']).isPrefixOf ['\n'] = true := hpre
    exact absurd (prefix_step hpre').1 (by decide)
  | [a] =>
    intro hpre
    have hpre' : ('#' :: '#' :: [' ']).isPrefixOf (a :: ['\n']) = true := hpre
    exact absurd (prefix_step (prefix_step hpre').2).1 (by decide)
  | [a, b] =>
    intro hpre
    have hpre' : ('#' :: '#' :: [' ']).isPrefixOf (a :: b :: ['\n']) = true := hpre
    exact absurd (prefix_step (prefix_step (prefix_step hpre').2).2).1 (by decide)
  | a :: b :: c :: p' =>
    intro hpre
    apply h
    have hpre' : ('#' :: '#' :: [' ']).isPrefixOf (a :: b :: c :: (p' ++ ['\n'])) = true := hpre
    obtain ⟨h1, hp1⟩ := prefix_step hpre'
    obtain ⟨h2, hp2⟩ := prefix_step hp1
    obtain ⟨h3, _⟩ := prefix_step hp2
    show ('#' :: '#' :: [' ']).isPrefixOf (a :: b :: c :: p') = true
    exact prefix_build h1 (prefix_build h2 (prefix_build h3 (isPrefixOf_nil_left _)))

theorem noOccAt_congr_r {sep a r r' : List Char} (he : r = r')
    (h : noOccAt sep a r) : noOccAt sep a r' := he ▸ h

/-- The `"\n\n"` separating the title line from the prompt cannot begin a
section marker: `"\n## "` there would need the prompt to begin with `"## "`. -/
theorem noOccAt_blank_line {p : List Char} (rr : List Char)
    (hp3 : ¬ ("## ".data.isPrefixOf p = true)) :
    noOccAt "\n## ".data ['\n', '\n'] (p ++ '\n' :: rr) := by
  have hstr := sharp2_not_prefix_mid rr (sharp2_not_prefix_snoc_nl hp3) (by decide)
  intro i hi hpre
  simp only [List.length_cons, List.length_nil] at hi
  interval_cases i
  · have hpre' : ('\n' :: '#' :: '#' :: [' ']).isPrefixOf
        ('\n' :: '\n' :: (p ++ '\n' :: rr)) = true := hpre
    exact absurd (prefix_step (prefix_step hpre').2).1 (by decide)
  · have hpre' : ('\n' :: '#' :: '#' :: [' ']).isPrefixOf
        ('\n' :: (p ++ '\n' :: rr)) = true := hpre
    exact hstr (prefix_step hpre').2

/-- A prompt with no internal `"\n## "` admits no section marker even where
its tail runs into the following `"\n"`. -/
theorem noOccAt_prompt {p : List Char} (rr : List Char)
    (hfs : findSplit "\n## ".data p = none) :
    noOccAt "\n## ".data p ('\n' :: rr) := by
  intro i hi hpre
  rw [drop_append_of_lt hi] at hpre
  match hq : p.drop i with
  | [] =>
    have hlen := congrArg List.length hq
    simp only [List.length_drop, List.length_nil] at hlen
    omega
  | [x1] =>
    rw [hq] at hpre
    have hpre' : ('\n' :: '#' :: '#' :: [' ']).isPrefixOf (x1 :: '\n' :: rr) = true := hpre
    exact absurd (prefix_step (prefix_step hpre').2).1 (by decide)
  | [x1, x2] =>
    rw [hq] at hpre
    have hpre' : ('\n' :: '#' :: '#' :: [' ']).isPrefixOf
        (x1 :: x2 :: '\n' :: rr) = true := hpre
    exact absurd (prefix_step (prefix_step (prefix_step hpre').2).2).1 (by decide)
  | [x1, x2, x3] =>
    rw [hq] at hpre
    have hpre' : ('\n' :: '#' :: '#' :: [' ']).isPrefixOf
        (x1 :: x2 :: x3 :: '\n' :: rr) = true := hpre
    exact absurd
      (prefix_step (prefix_step (prefix_step (prefix_step hpre').2).2).2).1 (by decide)
  | x1 :: x2 :: x3 :: x4 :: q' =>
    rw [hq] at hpre
    have hpre' : ('\n' :: '#' :: '#' :: [' ']).isPrefixOf
        (x1 :: x2 :: x3 :: x4 :: (q' ++ '\n' :: rr)) = true := hpre
    obtain ⟨h1, hp1⟩ := prefix_step hpre'
    obtain ⟨h2, hp2⟩ := prefix_step hp1
    obtain ⟨h3, hp3'⟩ := prefix_step hp2
    obtain ⟨h4, _⟩ := prefix_step hp3'
    have hinf : "\n## ".data <:+: p := by
      refine ⟨p.take i, q', ?_⟩
      have htd := List.take_append_drop i p
      rw [hq] at htd
      subst h1; subst h2; subst h3; subst h4
      simpa [List.append_assoc] using htd
    exact absurd hinf ((findSplit_none_iff (by decide)).mp hfs)

/-- The `"Voice\n"` heading cannot begin a section marker: `"\n## "` there
would need the name to start the `"## "` marker, which a good name cannot. -/
theorem noOccAt_voice_heading {n : List Char} (rr : List Char)
    (hn4 : ¬ ("## ".data.isPrefixOf (n ++ [' ']) = true)) :
    noOccAt "\n## ".data "Voice\n".data (n ++ ' ' :: rr) := by
  have hstr := sharp2_not_prefix_mid rr hn4 (by decide)
  intro i hi hpre
  have hi6 : i < 6 := hi
  have hvd : ("Voice\n".data ++ (n ++ ' ' :: rr)) =
      'V' :: 'o' :: 'i' :: 'c' :: 'e' :: '\n' :: (n ++ ' ' :: rr) := rfl
  rw [hvd] at hpre
  interval_cases i
  · exact absurd (prefix_step (show ('\n' :: '#' :: '#' :: [' ']).isPrefixOf
      ('V' :: 'o' :: 'i' :: 'c' :: 'e' :: '\n' :: (n ++ ' ' :: rr)) = true from hpre)).1
      (by decide)
  · exact absurd (prefix_step (show ('\n' :: '#' :: '#' :: [' ']).isPrefixOf
      ('o' :: 'i' :: 'c' :: 'e' :: '\n' :: (n ++ ' ' :: rr)) = true from hpre)).1
      (by decide)
  · exact absurd (prefix_step (show ('\n' :: '#' :: '#' :: [' ']).isPrefixOf
      ('i' :: 'c' :: 'e' :: '\n' :: (n ++ ' ' :: rr)) = true from hpre)).1
      (by decide)
  · exact absurd (prefix_step (show ('\n' :: '#' :: '#' :: [' ']).isPrefixOf
      ('c' :: 'e' :: '\n' :: (n ++ ' ' :: rr)) = true from hpre)).1
      (by decide)
  · exact absurd (prefix_step (show ('\n' :: '#' :: '#' :: [' ']).isPrefixOf
      ('e' :: '\n' :: (n ++ ' ' :: rr)) = true from hpre)).1
      (by decide)
  · exact hstr (prefix_step (show ('\n' :: '#' :: '#' :: [' ']).isPrefixOf
      ('\n' :: (n ++ ' ' :: rr)) = true from hpre)).2


/-! ## Round-trip machinery: the joined links block -/

theorem newline_not_mem_joinSep_good {toks : List (List Char)} (h : goodTokens toks) :
    '\n' ∉ joinSepL [' '] toks := by
  intro hmem
  rcases mem_joinSepL hmem with hsep | ⟨x, hx, hcx⟩
  · simp at hsep
  · have := (h x hx).2 '\n' hcx
    simp [isWsChar] at this

theorem dropWhile_ws_append_of_head_clean {y Y : List Char} (hy : y ≠ [])
    (hc : ∀ c ∈ y, isWsChar c = false) :
    (y ++ Y).dropWhile isWsChar = y ++ Y := by
  cases y with
  | nil => exact absurd rfl hy
  | cons c y' =>
    rw [List.cons_append]
    exact dropWhile_cons_of_neg _ (hc c (by simp))

theorem dropWhile_ws_reverse_of_last_clean {X y : List Char} (hy : y ≠ [])
    (hc : ∀ c ∈ y, isWsChar c = false) :
    ((X ++ y).reverse).dropWhile isWsChar = (X ++ y).reverse := by
  rw [List.reverse_append]
  cases hyr : y.reverse with
  | nil =>
    have : y = [] := by simpa using congrArg List.reverse hyr
    exact absurd this hy
  | cons c yr =>
    rw [List.cons_append]
    apply dropWhile_cons_of_neg
    apply hc
    have hcm : c ∈ y.reverse := by rw [hyr]; simp
    simpa using hcm

/-- A space-join of good tokens is already stripped. -/
theorem trimL_joinSep_good {toks : List (List Char)} (h : goodTokens toks) :
    trimL (joinSepL [' '] toks) = joinSepL [' '] toks := by
  cases toks with
  | nil => rfl
  | cons t ts =>
    obtain ⟨hne, hclean⟩ := h t (by simp)
    apply trimL_eq_self_of_parts
    · -- the head of the join is the first token's first character
      cases ts with
      | nil =>
        show (joinSepL [' '] [t]).dropWhile isWsChar = joinSepL [' '] [t]
        rw [show joinSepL [' '] [t] = t from rfl]
        rw [show t = t ++ [] by simp]
        exact dropWhile_ws_append_of_head_clean (by simpa using hne) (by simpa using hclean)
      | cons u ts' =>
        rw [show joinSepL [' '] (t :: u :: ts') =
              t ++ ([' '] ++ joinSepL [' '] (u :: ts')) from by
          rw [show joinSepL [' '] (t :: u :: ts') =
                t ++ [' '] ++ joinSepL [' '] (u :: ts') from rfl]
          simp [List.append_assoc]]
        exact dropWhile_ws_append_of_head_clean hne hclean
    · -- the last character of the join is the last token's last character
      have hnil : (t :: ts) ≠ ([] : List (List Char)) := by simp
      have hdec := (List.dropLast_append_getLast hnil).symm
      obtain ⟨hlast1, hlast2⟩ := h ((t :: ts).getLast hnil) (List.getLast_mem hnil)
      rw [hdec, joinSepL_concat]
      by_cases hinit : (t :: ts).dropLast = ([] : List (List Char))
      · rw [if_pos hinit]
        rw [show (t :: ts).getLast hnil =
              [] ++ (t :: ts).getLast hnil from (List.nil_append _).symm]
        exact dropWhile_ws_reverse_of_last_clean hlast1 hlast2
      · rw [if_neg hinit]
        rw [show joinSepL [' '] (t :: ts).dropLast ++ ([' '] ++ (t :: ts).getLast hnil) =
              (joinSepL [' '] (t :: ts).dropLast ++ [' ']) ++ (t :: ts).getLast hnil from by
          simp [List.append_assoc]]
        exact dropWhile_ws_reverse_of_last_clean hlast1 hlast2

/-! ## Round-trip machinery: the four sections of a rendered document -/

theorem noOccAt_nlsep_head : ("\n## ".data).head? = some '\n' := rfl

/-- No occurrence check for `A0 = "# " ++ name ++ "\n\n" ++ prompt ++ "\n"`
against the rest of the rendered document. -/
theorem noOccAt_region_title {n p : List Char} (b : List Char)
    (hn1 : '\n' ∉ n)
    (hp2 : findSplit "\n## ".data p = none)
    (hp3 : ¬ ("## ".data.isPrefixOf p = true)) :
    noOccAt "\n## ".data ("# ".data ++ (n ++ (['\n', '\n'] ++ (p ++ ['\n']))))
      ("\n## ".data ++ b) := by
  have h5 : noOccAt "\n## ".data ['\n'] ("\n## ".data ++ b) := by
    apply noOccAt_of_block b (by decide) (by decide)
    decide
  have h4 : noOccAt "\n## ".data p (['\n'] ++ ("\n## ".data ++ b)) :=
    noOccAt_prompt _ hp2
  have h45 : noOccAt "\n## ".data (p ++ ['\n']) ("\n## ".data ++ b) :=
    noOccAt_append h4 h5
  have h3 : noOccAt "\n## ".data ['\n', '\n'] ((p ++ ['\n']) ++ ("\n## ".data ++ b)) := by
    apply noOccAt_congr_r (List.append_assoc p ['\n'] _).symm
    exact noOccAt_blank_line _ hp3
  have h345 : noOccAt "\n## ".data (['\n', '\n'] ++ (p ++ ['\n'])) ("\n## ".data ++ b) :=
    noOccAt_append h3 h45
  have h2 : noOccAt "\n## ".data n ((['\n', '\n'] ++ (p ++ ['\n'])) ++ ("\n## ".data ++ b)) :=
    noOccAt_of_head_notMem noOccAt_nlsep_head hn1
  have h2345 := noOccAt_append h2 h345
  have h1 : noOccAt "\n## ".data "# ".data
      ((n ++ (['\n', '\n'] ++ (p ++ ['\n']))) ++ ("\n## ".data ++ b)) :=
    noOccAt_of_head_notMem noOccAt_nlsep_head (by decide)
  exact noOccAt_append h1 h2345

/-- No occurrence check for the Characteristics section (fully concrete). -/
theorem noOccAt_region_chars (b : List Char) :
    noOccAt "\n## ".data
      "Characteristics\n- Adaptable to conversation topics\n- Attentive to other speakers\n".data
      ("\n## ".data ++ b) := by
  apply noOccAt_of_block b (by decide) (by decide)
  decide

/-- No occurrence check for the Voice section. -/
theorem noOccAt_region_voice {n : List Char} (b : List Char)
    (hn1 : '\n' ∉ n)
    (hn4 : ¬ ("## ".data.isPrefixOf (n ++ [' ']) = true)) :
    noOccAt "\n## ".data
      ("Voice\n".data ++ (n ++ " speaks with:\n- a natural pace\n- a clear tone\n".data))
      ("\n## ".data ++ b) := by
  have h3 : noOccAt "\n## ".data
      " speaks with:\n- a natural pace\n- a clear tone\n".data ("\n## ".data ++ b) := by
    apply noOccAt_of_block b (by decide) (by decide)
    decide
  have h2 : noOccAt "\n## ".data n
      (" speaks with:\n- a natural pace\n- a clear tone\n".data ++ ("\n## ".data ++ b)) :=
    noOccAt_of_head_notMem noOccAt_nlsep_head hn1
  have h23 := noOccAt_append h2 h3
  have h1 : noOccAt "\n## ".data "Voice\n".data
      ((n ++ " speaks with:\n- a natural pace\n- a clear tone\n".data) ++
        ("\n## ".data ++ b)) := by
    apply noOccAt_congr_r
      (show n ++ (' ' :: ("speaks with:\n- a natural pace\n- a clear tone\n".data ++
          ("\n## ".data ++ b))) =
        (n ++ " speaks with:\n- a natural pace\n- a clear tone\n".data) ++
          ("\n## ".data ++ b) from by
        rw [show (" speaks with:\n- a natural pace\n- a clear tone\n".data) =
              ' ' :: "speaks with:\n- a natural pace\n- a clear tone\n".data from rfl]
        simp [List.append_assoc])
    exact noOccAt_voice_heading _ hn4
  exact noOccAt_append h1 h23

/-- No occurrence check for the Metadata section, which closes the document. -/
theorem noOccAt_region_meta {i e c g L : List Char}
    (hi : '\n' ∉ i) (he : '\n' ∉ e) (hc : '\n' ∉ c) (hg : '\n' ∉ g)
    (hL : '\n' ∉ L) :
    noOccAt "\n## ".data
      ("Metadata\n- image: ".data ++ (i ++ ("\n- entry_message: ".data ++
        (e ++ ("\n- cartesia_voice_id: ".data ++ (c ++ ("\n- gender: ".data ++
          (g ++ ("\n- relevant_links: ".data ++ (L ++ ['\n']))))))))))
      [] := by
  have h10 : noOccAt "\n## ".data ['\n'] ([] : List Char) := by decide
  have h9 : noOccAt "\n## ".data L (['\n'] ++ ([] : List Char)) :=
    noOccAt_of_head_notMem noOccAt_nlsep_head hL
  have h910 := noOccAt_append h9 h10
  have h8 : noOccAt "\n## ".data "\n- relevant_links: ".data ((L ++ ['\n']) ++ []) := by
    apply noOccAt_of_inner _ noOccAt_nlsep_head
    decide
  have h8' := noOccAt_append h8 h910
  have h7 : noOccAt "\n## ".data g (("\n- relevant_links: ".data ++ (L ++ ['\n'])) ++ []) :=
    noOccAt_of_head_notMem noOccAt_nlsep_head hg
  have h7' := noOccAt_append h7 h8'
  have h6 : noOccAt "\n## ".data "\n- gender: ".data
      ((g ++ ("\n- relevant_links: ".data ++ (L ++ ['\n']))) ++ []) := by
    apply noOccAt_of_inner _ noOccAt_nlsep_head
    decide
  have h6' := noOccAt_append h6 h7'
  have h5 : noOccAt "\n## ".data c
      (("\n- gender: ".data ++ (g ++ ("\n- relevant_links: ".data ++ (L ++ ['\n'])))) ++ []) :=
    noOccAt_of_head_notMem noOccAt_nlsep_head hc
  have h5' := noOccAt_append h5 h6'
  have h4 : noOccAt "\n## ".data "\n- cartesia_voice_id: ".data
      ((c ++ ("\n- gender: ".data ++ (g ++ ("\n- relevant_links: ".data ++
        (L ++ ['\n']))))) ++ []) := by
    apply noOccAt_of_inner _ noOccAt_nlsep_head
    decide
  have h4' := noOccAt_append h4 h5'
  have h3 : noOccAt "\n## ".data e
      (("\n- cartesia_voice_id: ".data ++ (c ++ ("\n- gender: ".data ++
        (g ++ ("\n- relevant_links: ".data ++ (L ++ ['\n'])))))) ++ []) :=
    noOccAt_of_head_notMem noOccAt_nlsep_head he
  have h3' := noOccAt_append h3 h4'
  have h2 : noOccAt "\n## ".data "\n- entry_message: ".data
      ((e ++ ("\n- cartesia_voice_id: ".data ++ (c ++ ("\n- gender: ".data ++
        (g ++ ("\n- relevant_links: ".data ++ (L ++ ['\n']))))))) ++ []) := by
    apply noOccAt_of_inner _ noOccAt_nlsep_head
    decide
  have h2' := noOccAt_append h2 h3'
  have h1 : noOccAt "\n## ".data i
      (("\n- entry_message: ".data ++ (e ++ ("\n- cartesia_voice_id: ".data ++
        (c ++ ("\n- gender: ".data ++ (g ++ ("\n- relevant_links: ".data ++
          (L ++ ['\n'])))))))) ++ []) :=
    noOccAt_of_head_notMem noOccAt_nlsep_head hi
  have h1' := noOccAt_append h1 h2'
  have h0 : noOccAt "\n## ".data "Metadata\n- image: ".data
      ((i ++ ("\n- entry_message: ".data ++ (e ++ ("\n- cartesia_voice_id: ".data ++
        (c ++ ("\n- gender: ".data ++ (g ++ ("\n- relevant_links: ".data ++
          (L ++ ['\n']))))))))) ++ []) := by
    apply noOccAt_of_inner _ noOccAt_nlsep_head
    decide
  exact noOccAt_append h0 h1'


set_option maxRecDepth 8192 in
/-- Splitting a rendered document on `"\n## "` yields exactly its four
sections: preamble, Characteristics, Voice, and Metadata. -/
theorem splitOn_render {n p i e c g : String} {links : List String}
    (hn1 : '\n' ∉ n.data)
    (hn4 : ¬ ("## ".data.isPrefixOf (n.data ++ [' ']) = true))
    (hp2 : findSplit "\n## ".data p.data = none)
    (hp3 : ¬ ("## ".data.isPrefixOf p.data = true))
    (hi : '\n' ∉ i.data) (he : '\n' ∉ e.data) (hc : '\n' ∉ c.data) (hg : '\n' ∉ g.data)
    (hl : goodTokens (links.map String.data)) :
    splitOnL "\n## ".data (render_readme n p ⟨i, e, c, g, links⟩).data =
      ["# ".data ++ (n.data ++ (['\n', '\n'] ++ (p.data ++ ['\n']))),
       "Characteristics\n- Adaptable to conversation topics\n- Attentive to other speakers\n".data,
       "Voice\n".data ++ (n.data ++ " speaks with:\n- a natural pace\n- a clear tone\n".data),
       "Metadata\n- image: ".data ++ (i.data ++ ("\n- entry_message: ".data ++
         (e.data ++ ("\n- cartesia_voice_id: ".data ++ (c.data ++ ("\n- gender: ".data ++
           (g.data ++ ("\n- relevant_links: ".data ++
             (joinSepL [' '] (links.map String.data) ++ ['\n'])))))))))] := by
  have hL : '\n' ∉ joinSepL [' '] (links.map String.data) :=
    newline_not_mem_joinSep_good hl
  have hdata : (render_readme n p ⟨i, e, c, g, links⟩).data =
      ("# ".data ++ (n.data ++ (['\n', '\n'] ++ (p.data ++ ['\n'])))) ++
        ("\n## ".data ++
          ("Characteristics\n- Adaptable to conversation topics\n- Attentive to other speakers\n".data ++
            ("\n## ".data ++
              (("Voice\n".data ++
                  (n.data ++ " speaks with:\n- a natural pace\n- a clear tone\n".data)) ++
                ("\n## ".data ++
                  ("Metadata\n- image: ".data ++ (i.data ++ ("\n- entry_message: ".data ++
                    (e.data ++ ("\n- cartesia_voice_id: ".data ++ (c.data ++
                      ("\n- gender: ".data ++ (g.data ++ ("\n- relevant_links: ".data ++
                        (joinSepL [' '] (links.map String.data) ++ ['\n']))))))))))))))) := by
    simp only [render_readme]
    rw [show joinSepS "\n" (DEFAULT_CHARACTERISTICS.map fun ch => "- " ++ ch) =
          "- Adaptable to conversation topics\n- Attentive to other speakers" from rfl]
    rw [show joinSepS "\n" (DEFAULT_VOICE_CHARACTERISTICS.map fun ch => "- " ++ ch) =
          "- a natural pace\n- a clear tone" from rfl]
    simp only [String.data_append]
    rw [show (joinSepS " " links).data = joinSepL [' '] (links.map String.data) from rfl]
    simp [List.append_assoc]
  rw [hdata]
  rw [splitOnL_cons (by decide) (noOccAt_region_title _ hn1 hp2 hp3)]
  rw [splitOnL_cons (by decide) (noOccAt_region_chars _)]
  rw [splitOnL_cons (by decide) (noOccAt_region_voice _ hn1 hn4)]
  rw [splitOnL_single (findSplit_none_of_noOccAt (by decide)
    (noOccAt_region_meta hi he hc hg hL))]


/-! ## Round-trip machinery: the Metadata section fold -/

theorem isPrefixOf_false_of_head_ne {a b : Char} (l₁ l₂ : List Char) (h : a ≠ b) :
    (a :: l₁).isPrefixOf (b :: l₂) = false := by
  show ((a == b) && l₁.isPrefixOf l₂) = false
  simp [h]

theorem parseMetaLine_skip {m : Metadata} {line : String}
    (h : startsWithS line "- " = false) : parseMetaLine m line = m := by
  unfold parseMetaLine
  rw [h]
  rfl

theorem parseMetaLine_image (m : Metadata) (v : String) :
    parseMetaLine m ⟨"- image: ".data ++ v.data⟩ = { m with image := trimS v } := by
  have hsw : startsWithS ⟨"- image: ".data ++ v.data⟩ "- " = true := by
    show "- ".data.isPrefixOf ("- image: ".data ++ v.data) = true
    rw [show "- image: ".data ++ v.data = "- ".data ++ ("image: ".data ++ v.data) from rfl]
    exact isPrefixOf_append_self _ _
  have hfs : findSplit ": ".data ("image".data ++ (": ".data ++ v.data)) =
      some ("image".data, v.data) :=
    findSplit_append (by decide)
      (noOccAt_of_head_notMem (show (": ".data).head? = some ':' from rfl) (by decide))
  unfold parseMetaLine
  rw [hsw, if_pos rfl]
  rw [show ((⟨"- image: ".data ++ v.data⟩ : String)).data.drop 2 =
        "image".data ++ (": ".data ++ v.data) from rfl]
  rw [show splitFirstS ": " ⟨"image".data ++ (": ".data ++ v.data)⟩ =
        some ("image", v) from by
    unfold splitFirstS
    rw [show ((⟨"image".data ++ (": ".data ++ v.data)⟩ : String)).data =
          "image".data ++ (": ".data ++ v.data) from rfl]
    rw [hfs]
    rfl]
  show (if ("image" : String) == "relevant_links" then _
        else if ("image" : String) == "image" then { m with image := trimS v }
        else _) = { m with image := trimS v }
  rfl

theorem parseMetaLine_entry (m : Metadata) (v : String) :
    parseMetaLine m ⟨"- entry_message: ".data ++ v.data⟩ =
      { m with entry_message := trimS v } := by
  have hsw : startsWithS ⟨"- entry_message: ".data ++ v.data⟩ "- " = true := by
    show "- ".data.isPrefixOf ("- entry_message: ".data ++ v.data) = true
    rw [show "- entry_message: ".data ++ v.data =
          "- ".data ++ ("entry_message: ".data ++ v.data) from rfl]
    exact isPrefixOf_append_self _ _
  have hfs : findSplit ": ".data ("entry_message".data ++ (": ".data ++ v.data)) =
      some ("entry_message".data, v.data) :=
    findSplit_append (by decide)
      (noOccAt_of_head_notMem (show (": ".data).head? = some ':' from rfl) (by decide))
  unfold parseMetaLine
  rw [hsw, if_pos rfl]
  rw [show ((⟨"- entry_message: ".data ++ v.data⟩ : String)).data.drop 2 =
        "entry_message".data ++ (": ".data ++ v.data) from rfl]
  rw [show splitFirstS ": " ⟨"entry_message".data ++ (": ".data ++ v.data)⟩ =
        some ("entry_message", v) from by
    unfold splitFirstS
    rw [show ((⟨"entry_message".data ++ (": ".data ++ v.data)⟩ : String)).data =
          "entry_message".data ++ (": ".data ++ v.data) from rfl]
    rw [hfs]
    rfl]
  rfl

theorem parseMetaLine_voice (m : Metadata) (v : String) :
    parseMetaLine m ⟨"- cartesia_voice_id: ".data ++ v.data⟩ =
      { m with cartesia_voice_id := trimS v } := by
  have hsw : startsWithS ⟨"- cartesia_voice_id: ".data ++ v.data⟩ "- " = true := by
    show "- ".data.isPrefixOf ("- cartesia_voice_id: ".data ++ v.data) = true
    rw [show "- cartesia_voice_id: ".data ++ v.data =
          "- ".data ++ ("cartesia_voice_id: ".data ++ v.data) from rfl]
    exact isPrefixOf_append_self _ _
  have hfs : findSplit ": ".data ("cartesia_voice_id".data ++ (": ".data ++ v.data)) =
      some ("cartesia_voice_id".data, v.data) :=
    findSplit_append (by decide)
      (noOccAt_of_head_notMem (show (": ".data).head? = some ':' from rfl) (by decide))
  unfold parseMetaLine
  rw [hsw, if_pos rfl]
  rw [show ((⟨"- cartesia_voice_id: ".data ++ v.data⟩ : String)).data.drop 2 =
        "cartesia_voice_id".data ++ (": ".data ++ v.data) from rfl]
  rw [show splitFirstS ": " ⟨"cartesia_voice_id".data ++ (": ".data ++ v.data)⟩ =
        some ("cartesia_voice_id", v) from by
    unfold splitFirstS
    rw [show ((⟨"cartesia_voice_id".data ++ (": ".data ++ v.data)⟩ : String)).data =
          "cartesia_voice_id".data ++ (": ".data ++ v.data) from rfl]
    rw [hfs]
    rfl]
  rfl

theorem parseMetaLine_gender (m : Metadata) (v : String) :
    parseMetaLine m ⟨"- gender: ".data ++ v.data⟩ = { m with gender := trimS v } := by
  have hsw : startsWithS ⟨"- gender: ".data ++ v.data⟩ "- " = true := by
    show "- ".data.isPrefixOf ("- gender: ".data ++ v.data) = true
    rw [show "- gender: ".data ++ v.data = "- ".data ++ ("gender: ".data ++ v.data) from rfl]
    exact isPrefixOf_append_self _ _
  have hfs : findSplit ": ".data ("gender".data ++ (": ".data ++ v.data)) =
      some ("gender".data, v.data) :=
    findSplit_append (by decide)
      (noOccAt_of_head_notMem (show (": ".data).head? = some ':' from rfl) (by decide))
  unfold parseMetaLine
  rw [hsw, if_pos rfl]
  rw [show ((⟨"- gender: ".data ++ v.data⟩ : String)).data.drop 2 =
        "gender".data ++ (": ".data ++ v.data) from rfl]
  rw [show splitFirstS ": " ⟨"gender".data ++ (": ".data ++ v.data)⟩ =
        some ("gender", v) from by
    unfold splitFirstS
    rw [show ((⟨"gender".data ++ (": ".data ++ v.data)⟩ : String)).data =
          "gender".data ++ (": ".data ++ v.data) from rfl]
    rw [hfs]
    rfl]
  rfl

theorem parseMetaLine_links (m : Metadata) (v : String) :
    parseMetaLine m ⟨"- relevant_links: ".data ++ v.data⟩ =
      { m with relevant_links := (splitWsS (trimS v)).filter fun url => url ≠ "" } := by
  have hsw : startsWithS ⟨"- relevant_links: ".data ++ v.data⟩ "- " = true := by
    show "- ".data.isPrefixOf ("- relevant_links: ".data ++ v.data) = true
    rw [show "- relevant_links: ".data ++ v.data =
          "- ".data ++ ("relevant_links: ".data ++ v.data) from rfl]
    exact isPrefixOf_append_self _ _
  have hfs : findSplit ": ".data ("relevant_links".data ++ (": ".data ++ v.data)) =
      some ("relevant_links".data, v.data) :=
    findSplit_append (by decide)
      (noOccAt_of_head_notMem (show (": ".data).head? = some ':' from rfl) (by decide))
  unfold parseMetaLine
  rw [hsw, if_pos rfl]
  rw [show ((⟨"- relevant_links: ".data ++ v.data⟩ : String)).data.drop 2 =
        "relevant_links".data ++ (": ".data ++ v.data) from rfl]
  rw [show splitFirstS ": " ⟨"relevant_links".data ++ (": ".data ++ v.data)⟩ =
        some ("relevant_links", v) from by
    unfold splitFirstS
    rw [show ((⟨"relevant_links".data ++ (": ".data ++ v.data)⟩ : String)).data =
          "relevant_links".data ++ (": ".data ++ v.data) from rfl]
    rw [hfs]
    rfl]
  rfl


set_option maxRecDepth 8192 in
/-- Folding the metadata lines of a rendered document recovers the five
(stripped) metadata values. -/
theorem parseMetadata_render (n p i e c g : String) (links : List String)
    (hi : '\n' ∉ i.data) (he : '\n' ∉ e.data) (hc : '\n' ∉ c.data) (hg : '\n' ∉ g.data)
    (hL : '\n' ∉ joinSepL [' '] (links.map String.data)) :
    parseMetadata
      [⟨"# ".data ++ (n.data ++ (['\n', '\n'] ++ (p.data ++ ['\n'])))⟩,
       ⟨"Characteristics\n- Adaptable to conversation topics\n- Attentive to other speakers\n".data⟩,
       ⟨"Voice\n".data ++ (n.data ++ " speaks with:\n- a natural pace\n- a clear tone\n".data)⟩,
       ⟨"Metadata\n- image: ".data ++ (i.data ++ ("\n- entry_message: ".data ++
         (e.data ++ ("\n- cartesia_voice_id: ".data ++ (c.data ++ ("\n- gender: ".data ++
           (g.data ++ ("\n- relevant_links: ".data ++
             ((⟨joinSepL [' '] (links.map String.data)⟩ : String).data ++ ['\n'])))))))))⟩] =
      ⟨trimS i, trimS e, trimS c, trimS g,
        (splitWsS (trimS ⟨joinSepL [' '] (links.map String.data)⟩)).filter
          fun url => url ≠ ""⟩ := by
  have f0 : startsWithS ⟨"# ".data ++ (n.data ++ (['\n', '\n'] ++ (p.data ++ ['\n'])))⟩
      "Metadata" = false := by
    show "Metadata".data.isPrefixOf
      ('#' :: (' ' :: (n.data ++ (['\n', '\n'] ++ (p.data ++ ['\n']))))) = false
    rw [show "Metadata".data = 'M' :: "etadata".data from rfl]
    exact isPrefixOf_false_of_head_ne _ _ (by decide)
  have f1 : startsWithS
      ⟨"Characteristics\n- Adaptable to conversation topics\n- Attentive to other speakers\n".data⟩
      "Metadata" = false := by decide
  have f2 : startsWithS
      ⟨"Voice\n".data ++ (n.data ++ " speaks with:\n- a natural pace\n- a clear tone\n".data)⟩
      "Metadata" = false := by
    show "Metadata".data.isPrefixOf
      ('V' :: ("oice\n".data ++ (n.data ++ " speaks with:\n- a natural pace\n- a clear tone\n".data))) = false
    rw [show "Metadata".data = 'M' :: "etadata".data from rfl]
    exact isPrefixOf_false_of_head_ne _ _ (by decide)
  have f3 : startsWithS ⟨"Metadata\n- image: ".data ++ (i.data ++ ("\n- entry_message: ".data ++
         (e.data ++ ("\n- cartesia_voice_id: ".data ++ (c.data ++ ("\n- gender: ".data ++
           (g.data ++ ("\n- relevant_links: ".data ++
             ((⟨joinSepL [' '] (links.map String.data)⟩ : String).data ++ ['\n'])))))))))⟩ "Metadata" = true := by
    show "Metadata".data.isPrefixOf ("Metadata".data ++ ("\n- image: ".data ++
      (i.data ++ ("\n- entry_message: ".data ++ (e.data ++ ("\n- cartesia_voice_id: ".data ++
        (c.data ++ ("\n- gender: ".data ++ (g.data ++ ("\n- relevant_links: ".data ++
          ((⟨joinSepL [' '] (links.map String.data)⟩ : String).data ++ ['\n']))))))))))) = true
    exact isPrefixOf_append_self _ _
  have hlines : splitOnS "\n" ⟨"Metadata\n- image: ".data ++ (i.data ++ ("\n- entry_message: ".data ++
         (e.data ++ ("\n- cartesia_voice_id: ".data ++ (c.data ++ ("\n- gender: ".data ++
           (g.data ++ ("\n- relevant_links: ".data ++
             ((⟨joinSepL [' '] (links.map String.data)⟩ : String).data ++ ['\n'])))))))))⟩ =
      [⟨"Metadata".data⟩,
       ⟨"- image: ".data ++ i.data⟩,
       ⟨"- entry_message: ".data ++ e.data⟩,
       ⟨"- cartesia_voice_id: ".data ++ c.data⟩,
       ⟨"- gender: ".data ++ g.data⟩,
       ⟨"- relevant_links: ".data ++ (⟨joinSepL [' '] (links.map String.data)⟩ : String).data⟩,
       ⟨[]⟩] := by
    unfold splitOnS
    have hshape : ((⟨"Metadata\n- image: ".data ++ (i.data ++ ("\n- entry_message: ".data ++
         (e.data ++ ("\n- cartesia_voice_id: ".data ++ (c.data ++ ("\n- gender: ".data ++
           (g.data ++ ("\n- relevant_links: ".data ++
             ((⟨joinSepL [' '] (links.map String.data)⟩ : String).data ++
               ['\n'])))))))))⟩ : String)).data =
          "Metadata".data ++ (['\n'] ++ (("- image: ".data ++ i.data) ++ (['\n'] ++
            (("- entry_message: ".data ++ e.data) ++ (['\n'] ++
              (("- cartesia_voice_id: ".data ++ c.data) ++ (['\n'] ++
                (("- gender: ".data ++ g.data) ++ (['\n'] ++
                  (("- relevant_links: ".data ++
                      (⟨joinSepL [' '] (links.map String.data)⟩ : String).data) ++
                    (['\n'] ++ ([] : List Char)))))))))))) := rfl
    rw [hshape]
    rw [show ("\n" : String).data = ['\n'] from rfl]
    rw [splitOnL_cons (by decide)
      (noOccAt_of_head_notMem (show (['\n'] : List Char).head? = some '\n' from rfl) (by decide))]
    rw [splitOnL_cons (by decide)
      (noOccAt_append (noOccAt_of_head_notMem (show (['\n'] : List Char).head? = some '\n' from rfl) (by decide))
        (noOccAt_of_head_notMem (show (['\n'] : List Char).head? = some '\n' from rfl) hi))]
    rw [splitOnL_cons (by decide)
      (noOccAt_append (noOccAt_of_head_notMem (show (['\n'] : List Char).head? = some '\n' from rfl) (by decide))
        (noOccAt_of_head_notMem (show (['\n'] : List Char).head? = some '\n' from rfl) he))]
    rw [splitOnL_cons (by decide)
      (noOccAt_append (noOccAt_of_head_notMem (show (['\n'] : List Char).head? = some '\n' from rfl) (by decide))
        (noOccAt_of_head_notMem (show (['\n'] : List Char).head? = some '\n' from rfl) hc))]
    rw [splitOnL_cons (by decide)
      (noOccAt_append (noOccAt_of_head_notMem (show (['\n'] : List Char).head? = some '\n' from rfl) (by decide))
        (noOccAt_of_head_notMem (show (['\n'] : List Char).head? = some '\n' from rfl) hg))]
    rw [splitOnL_cons (by decide)
      (noOccAt_append (noOccAt_of_head_notMem (show (['\n'] : List Char).head? = some '\n' from rfl) (by decide))
        (noOccAt_of_head_notMem (show (['\n'] : List Char).head? = some '\n' from rfl) hL))]
    rfl
  unfold parseMetadata
  have hfind : ([⟨"# ".data ++ (n.data ++ (['\n', '\n'] ++ (p.data ++ ['\n'])))⟩,
       ⟨"Characteristics\n- Adaptable to conversation topics\n- Attentive to other speakers\n".data⟩,
       ⟨"Voice\n".data ++ (n.data ++ " speaks with:\n- a natural pace\n- a clear tone\n".data)⟩,
       ⟨"Metadata\n- image: ".data ++ (i.data ++ ("\n- entry_message: ".data ++
         (e.data ++ ("\n- cartesia_voice_id: ".data ++ (c.data ++ ("\n- gender: ".data ++
           (g.data ++ ("\n- relevant_links: ".data ++
             ((⟨joinSepL [' '] (links.map String.data)⟩ : String).data ++
               ['\n'])))))))))⟩] : List String).find? (fun s => startsWithS s "Metadata") =
        some ⟨"Metadata\n- image: ".data ++ (i.data ++ ("\n- entry_message: ".data ++
         (e.data ++ ("\n- cartesia_voice_id: ".data ++ (c.data ++ ("\n- gender: ".data ++
           (g.data ++ ("\n- relevant_links: ".data ++
             ((⟨joinSepL [' '] (links.map String.data)⟩ : String).data ++
               ['\n'])))))))))⟩ := by
    simp only [List.find?, f0, f1, f2, f3]
  rw [hfind]
  show (splitOnS "\n" ⟨"Metadata\n- image: ".data ++ (i.data ++ ("\n- entry_message: ".data ++
         (e.data ++ ("\n- cartesia_voice_id: ".data ++ (c.data ++ ("\n- gender: ".data ++
           (g.data ++ ("\n- relevant_links: ".data ++
             ((⟨joinSepL [' '] (links.map String.data)⟩ : String).data ++
               ['\n'])))))))))⟩).foldl parseMetaLine {} =
      (⟨trimS i, trimS e, trimS c, trimS g,
        (splitWsS (trimS ⟨joinSepL [' '] (links.map String.data)⟩)).filter
          fun url => url ≠ ""⟩ : Metadata)
  rw [hlines]
  rw [List.foldl_cons, parseMetaLine_skip (by decide)]
  rw [List.foldl_cons, parseMetaLine_image]
  rw [List.foldl_cons, parseMetaLine_entry]
  rw [List.foldl_cons, parseMetaLine_voice]
  rw [List.foldl_cons, parseMetaLine_gender]
  rw [List.foldl_cons, parseMetaLine_links]
  rw [List.foldl_cons, parseMetaLine_skip (by decide)]
  rw [List.foldl_nil]

/-! ## The parse/render round trip -/

set_option maxRecDepth 8192 in
/-- Parsing a document rendered from well-formed fields (newline-free
stripped name without an inner title marker, stripped prompt without a
section break, newline-free stripped metadata values, whitespace-free
nonempty link tokens) recovers exactly those fields. -/
theorem parse_render_roundtrip (n p i e c g : String) (links : List String)
    (hn1 : '\n' ∉ n.data) (hn2 : trimL n.data = n.data)
    (hn3 : findSplit "# ".data n.data = none)
    (hn4 : ¬ ("## ".data.isPrefixOf (n.data ++ [' ']) = true))
    (hp1 : trimL p.data = p.data)
    (hp2 : findSplit "\n## ".data p.data = none)
    (hp3 : ¬ ("## ".data.isPrefixOf p.data = true))
    (hi1 : '\n' ∉ i.data) (hi2 : trimL i.data = i.data)
    (he1 : '\n' ∉ e.data) (he2 : trimL e.data = e.data)
    (hc1 : '\n' ∉ c.data) (hc2 : trimL c.data = c.data)
    (hg1 : '\n' ∉ g.data) (hg2 : trimL g.data = g.data)
    (hl : goodTokens (links.map String.data)) :
    parse_readme (render_readme n p ⟨i, e, c, g, links⟩) =
      some ⟨n, p, i, e, c, g, links, none⟩ := by
  have hL : '\n' ∉ joinSepL [' '] (links.map String.data) :=
    newline_not_mem_joinSep_good hl
  have hsec := splitOn_render hn1 hn4 hp2 hp3 hi1 he1 hc1 hg1 hl
  have hsf : splitFirstS "\n\n"
      (⟨"# ".data ++ (n.data ++ (['\n', '\n'] ++ (p.data ++ ['\n'])))⟩ : String) =
      some (⟨"# ".data ++ n.data⟩, ⟨p.data ++ ['\n']⟩) := by
    unfold splitFirstS
    have hshape : ((⟨"# ".data ++ (n.data ++ (['\n', '\n'] ++ (p.data ++ ['\n'])))⟩ :
        String)).data =
        ("# ".data ++ n.data) ++ ("\n\n".data ++ (p.data ++ ['\n'])) := by
      show "# ".data ++ (n.data ++ (['\n', '\n'] ++ (p.data ++ ['\n']))) =
        ("# ".data ++ n.data) ++ ("\n\n".data ++ (p.data ++ ['\n']))
      simp [List.append_assoc]
    rw [hshape]
    rw [findSplit_append (by decide)
      (noOccAt_append
        (noOccAt_of_head_notMem (show ("\n\n".data).head? = some '\n' from rfl) (by decide))
        (noOccAt_of_head_notMem (show ("\n\n".data).head? = some '\n' from rfl) hn1))]
    rfl
  have hname : parse_name
      (⟨"# ".data ++ (n.data ++ (['\n', '\n'] ++ (p.data ++ ['\n'])))⟩ : String) = n := by
    unfold parse_name
    have hshape : ((⟨"# ".data ++ (n.data ++ (['\n', '\n'] ++ (p.data ++ ['\n'])))⟩ :
        String)).data =
        ("# ".data ++ n.data) ++ (['\n'] ++ ('\n' :: (p.data ++ ['\n']))) := by
      show "# ".data ++ (n.data ++ (['\n', '\n'] ++ (p.data ++ ['\n']))) =
        ("# ".data ++ n.data) ++ (['\n'] ++ ('\n' :: (p.data ++ ['\n'])))
      simp [List.append_assoc]
    rw [hshape]
    rw [findSplit_append (by decide)
      (noOccAt_append
        (noOccAt_of_head_notMem (show (['\n'] : List Char).head? = some '\n' from rfl)
          (by decide))
        (noOccAt_of_head_notMem (show (['\n'] : List Char).head? = some '\n' from rfl) hn1))]
    show trimS (replaceS "# " "" (⟨"# ".data ++ n.data⟩ : String)) = n
    have hrep : replaceS "# " "" (⟨"# ".data ++ n.data⟩ : String) = (⟨n.data⟩ : String) := by
      show (⟨replaceL "# ".data "".data ((⟨"# ".data ++ n.data⟩ : String).data)⟩ : String) =
        (⟨n.data⟩ : String)
      rw [show ((⟨"# ".data ++ n.data⟩ : String)).data = "# ".data ++ n.data from rfl]
      rw [replaceL_strip (by decide) hn3]
      rfl
    rw [hrep]
    show (⟨trimL ((⟨n.data⟩ : String).data)⟩ : String) = n
    rw [show ((⟨n.data⟩ : String)).data = n.data from rfl]
    rw [hn2]
  have hprompt : trimS (⟨p.data ++ ['\n']⟩ : String) = p := by
    show (⟨trimL ((⟨p.data ++ ['\n']⟩ : String).data)⟩ : String) = p
    rw [show ((⟨p.data ++ ['\n']⟩ : String)).data = p.data ++ ['\n'] from rfl]
    rw [trimL_append_newline hp1]
  have hmeta : parseMetadata
      [⟨"# ".data ++ (n.data ++ (['\n', '\n'] ++ (p.data ++ ['\n'])))⟩,
       ⟨"Characteristics\n- Adaptable to conversation topics\n- Attentive to other speakers\n".data⟩,
       ⟨"Voice\n".data ++ (n.data ++ " speaks with:\n- a natural pace\n- a clear tone\n".data)⟩,
       ⟨"Metadata\n- image: ".data ++ (i.data ++ ("\n- entry_message: ".data ++
         (e.data ++ ("\n- cartesia_voice_id: ".data ++ (c.data ++ ("\n- gender: ".data ++
           (g.data ++ ("\n- relevant_links: ".data ++
             (joinSepL [' '] (links.map String.data) ++ ['\n'])))))))))⟩] =
      ⟨i, e, c, g, links⟩ := by
    have hbase := parseMetadata_render n p i e c g links hi1 he1 hc1 hg1 hL
    rw [show ((⟨joinSepL [' '] (links.map String.data)⟩ : String).data) =
          joinSepL [' '] (links.map String.data) from rfl] at hbase
    rw [hbase]
    have htri : trimS i = i := by
      show (⟨trimL i.data⟩ : String) = i
      rw [hi2]
    have htre : trimS e = e := by
      show (⟨trimL e.data⟩ : String) = e
      rw [he2]
    have htrc : trimS c = c := by
      show (⟨trimL c.data⟩ : String) = c
      rw [hc2]
    have htrg : trimS g = g := by
      show (⟨trimL g.data⟩ : String) = g
      rw [hg2]
    rw [htri, htre, htrc, htrg]
    have htrj : trimS (⟨joinSepL [' '] (links.map String.data)⟩ : String) =
        (⟨joinSepL [' '] (links.map String.data)⟩ : String) := by
      show (⟨trimL ((⟨joinSepL [' '] (links.map String.data)⟩ : String).data)⟩ : String) =
        (⟨joinSepL [' '] (links.map String.data)⟩ : String)
      rw [show ((⟨joinSepL [' '] (links.map String.data)⟩ : String)).data =
            joinSepL [' '] (links.map String.data) from rfl]
      rw [trimL_joinSep_good hl]
    rw [htrj]
    have hsw : splitWsS (⟨joinSepL [' '] (links.map String.data)⟩ : String) = links := by
      unfold splitWsS
      rw [show ((⟨joinSepL [' '] (links.map String.data)⟩ : String)).data =
            joinSepL [' '] (links.map String.data) from rfl]
      rw [splitWsL_joinSepL hl]
      rw [List.map_map]
      have hid : (fun l => (⟨l⟩ : String)) ∘ String.data = id := by
        funext s
        rfl
      rw [hid, List.map_id]
    rw [hsw]
    have hfil : links.filter (fun url => url ≠ "") = links := by
      apply List.filter_eq_self.mpr
      intro u hu
      have hmem : u.data ∈ links.map String.data := by
        simp only [List.mem_map]
        exact ⟨u, hu, rfl⟩
      have hne : u.data ≠ [] := (hl u.data hmem).1
      have hne' : u ≠ "" := by
        intro hEq
        apply hne
        rw [hEq]
      exact decide_eq_true hne'
    rw [hfil]
  simp only [parse_readme, splitOnS]
  rw [hsec]
  simp only [List.map, List.headD_cons]
  rw [hsf]
  show some (recordOfParse
      (parse_name (⟨"# ".data ++ (n.data ++ (['\n', '\n'] ++ (p.data ++ ['\n'])))⟩ : String))
      (trimS (⟨p.data ++ ['\n']⟩ : String))
      (parseMetadata
        [⟨"# ".data ++ (n.data ++ (['\n', '\n'] ++ (p.data ++ ['\n'])))⟩,
         ⟨"Characteristics\n- Adaptable to conversation topics\n- Attentive to other speakers\n".data⟩,
         ⟨"Voice\n".data ++ (n.data ++ " speaks with:\n- a natural pace\n- a clear tone\n".data)⟩,
         ⟨"Metadata\n- image: ".data ++ (i.data ++ ("\n- entry_message: ".data ++
           (e.data ++ ("\n- cartesia_voice_id: ".data ++ (c.data ++ ("\n- gender: ".data ++
             (g.data ++ ("\n- relevant_links: ".data ++
               (joinSepL [' '] (links.map String.data) ++ ['\n'])))))))))⟩])) =
    some ⟨n, p, i, e, c, g, links, none⟩
  rw [hname, hprompt, hmeta]
  rfl

/-- C4: for a document that parses successfully into well-formed fields
(newline-free stripped name containing no `"# "` and starting no `"## "`,
stripped prompt containing no `"\n## "` and starting no `"## "`,
newline-free stripped metadata values, whitespace-free nonempty link
tokens), rendering the parsed record through the save template and parsing
again reproduces the same name, the same prompt and the same five metadata
field values. -/
theorem parse_roundtrip_C4 (D : String) (r : PersonaRecord)
    (hD : parse_readme D = some r)
    (hn1 : '\n' ∉ r.name.data) (hn2 : trimL r.name.data = r.name.data)
    (hn3 : findSplit "# ".data r.name.data = none)
    (hn4 : ¬ ("## ".data.isPrefixOf (r.name.data ++ [' ']) = true))
    (hp1 : trimL r.prompt.data = r.prompt.data)
    (hp2 : findSplit "\n## ".data r.prompt.data = none)
    (hp3 : ¬ ("## ".data.isPrefixOf r.prompt.data = true))
    (hi1 : '\n' ∉ r.image.data) (hi2 : trimL r.image.data = r.image.data)
    (he1 : '\n' ∉ r.entry_message.data)
    (he2 : trimL r.entry_message.data = r.entry_message.data)
    (hc1 : '\n' ∉ r.cartesia_voice_id.data)
    (hc2 : trimL r.cartesia_voice_id.data = r.cartesia_voice_id.data)
    (hg1 : '\n' ∉ r.gender.data) (hg2 : trimL r.gender.data = r.gender.data)
    (hl : goodTokens (r.relevant_links.map String.data)) :
    parse_readme (render_readme r.name r.prompt
      ⟨r.image, r.entry_message, r.cartesia_voice_id, r.gender, r.relevant_links⟩) =
      some r := by
  have hac : r.additional_content = none := by
    simp only [parse_readme] at hD
    cases hsf : splitFirstS "\n\n" ((splitOnS "\n## " D).headD "") with
    | none =>
      rw [hsf] at hD
      have hD' : (none : Option PersonaRecord) = some r := hD
      exact Option.noConfusion hD'
    | some pr =>
      rw [hsf] at hD
      obtain ⟨a, rest⟩ := pr
      have hD' : some (recordOfParse (parse_name ((splitOnS "\n## " D).headD ""))
          (trimS rest) (parseMetadata (splitOnS "\n## " D))) = some r := hD
      injection hD' with hr
      rw [← hr]
      rfl
  have hmain := parse_render_roundtrip r.name r.prompt r.image r.entry_message
    r.cartesia_voice_id r.gender r.relevant_links hn1 hn2 hn3 hn4 hp1 hp2 hp3
    hi1 hi2 he1 he2 hc1 hc2 hg1 hg2 hl
  rw [hmain]
  obtain ⟨na, pq, im, em, cv, ge, rl, ac⟩ := r
  have hac' : ac = none := hac
  rw [hac']

set_option maxRecDepth 100000 in
set_option maxHeartbeats 1000000 in
/-- Witness for C4 at a concrete valid document. -/
theorem parse_roundtrip_C4_witness :
    parse_readme (render_readme "Ada" "Loves teaching."
      ⟨"img", "hi", "v1", "FEMALE", ["a", "b"]⟩) =
      some ⟨"Ada", "Loves teaching.", "img", "hi", "v1", "FEMALE", ["a", "b"], none⟩ :=
  parse_roundtrip_C4
    "# Ada\n\nLoves teaching.\n\n## Metadata\n- image: img\n- entry_message: hi\n- cartesia_voice_id: v1\n- gender: FEMALE\n- relevant_links: a b\n"
    ⟨"Ada", "Loves teaching.", "img", "hi", "v1", "FEMALE", ["a", "b"], none⟩
    rfl
    (by decide) (by decide) (by decide) (by decide)
    (by decide) (by decide) (by decide)
    (by decide) (by decide) (by decide) (by decide) (by decide) (by decide)
    (by decide) (by decide)
    (by decide)

set_option maxHeartbeats 1000000 in
/-- C7: saving over an existing parsable document with an input that sets
name, prompt and image but omits entry_message, cartesia_voice_id, gender
and relevant_links writes a document whose parse carries the prior
document's values for those four fields unchanged (well-formedness of the
written fields assumed as in the round-trip theorem). -/
theorem save_preserves_metadata_C7 (content : String) (ex : PersonaRecord)
    (q : PersonaInput) (coin : Bool) (out : String)
    (hparse : parse_readme content = some ex)
    (hqe : q.entry_message = none) (hqc : q.cartesia_voice_id = none)
    (hqg : q.gender = none) (hql : q.relevant_links = none)
    (hsave : save_persona q (some content) coin = some out)
    (hn1 : '\n' ∉ q.name.data) (hn2 : trimL q.name.data = q.name.data)
    (hn3 : findSplit "# ".data q.name.data = none)
    (hn4 : ¬ ("## ".data.isPrefixOf (q.name.data ++ [' ']) = true))
    (hp1 : trimL q.prompt.data = q.prompt.data)
    (hp2 : findSplit "\n## ".data q.prompt.data = none)
    (hp3 : ¬ ("## ".data.isPrefixOf q.prompt.data = true))
    (hi1 : '\n' ∉ (q.image.getD ex.image).data)
    (hi2 : trimL (q.image.getD ex.image).data = (q.image.getD ex.image).data)
    (he1 : '\n' ∉ ex.entry_message.data)
    (he2 : trimL ex.entry_message.data = ex.entry_message.data)
    (hc1 : '\n' ∉ ex.cartesia_voice_id.data)
    (hc2 : trimL ex.cartesia_voice_id.data = ex.cartesia_voice_id.data)
    (hg1 : '\n' ∉ ex.gender.data) (hg2 : trimL ex.gender.data = ex.gender.data)
    (hl : goodTokens (ex.relevant_links.map String.data)) :
    parse_readme out = some ⟨q.name, q.prompt, q.image.getD ex.image,
      ex.entry_message, ex.cartesia_voice_id, ex.gender, ex.relevant_links, none⟩ := by
  have hout : out = render_readme q.name q.prompt (mergeWithExisting q ex) := by
    have hsave2 : saveWithExisting q content = some out := hsave
    unfold saveWithExisting at hsave2
    rw [hparse] at hsave2
    have hsave' : some (render_readme q.name q.prompt (mergeWithExisting q ex)) =
        some out := hsave2
    injection hsave' with h
    exact h.symm
  have hmerge : mergeWithExisting q ex =
      ⟨q.image.getD ex.image, ex.entry_message, ex.cartesia_voice_id, ex.gender,
        ex.relevant_links⟩ := by
    unfold mergeWithExisting
    rw [hqe, hqc, hqg, hql]
    rfl
  rw [hout, hmerge]
  exact parse_render_roundtrip q.name q.prompt (q.image.getD ex.image) ex.entry_message
    ex.cartesia_voice_id ex.gender ex.relevant_links hn1 hn2 hn3 hn4 hp1 hp2 hp3
    hi1 hi2 he1 he2 hc1 hc2 hg1 hg2 hl

set_option maxRecDepth 100000 in
set_option maxHeartbeats 1000000 in
/-- Witness for C7: a partial update that changes only name, prompt and
image keeps the stored entry_message, cartesia_voice_id, gender and
relevant_links. -/
theorem save_preserves_metadata_C7_witness :
    parse_readme (render_readme "Bob" "New prompt."
      ⟨"new.png", "hey", "v2", "MALE", ["x", "y"]⟩) =
      some ⟨"Bob", "New prompt.", "new.png", "hey", "v2", "MALE", ["x", "y"], none⟩ :=
  save_preserves_metadata_C7
    "# Bob\n\nOld prompt.\n\n## Metadata\n- image: old.png\n- entry_message: hey\n- cartesia_voice_id: v2\n- gender: MALE\n- relevant_links: x y\n"
    ⟨"Bob", "Old prompt.", "old.png", "hey", "v2", "MALE", ["x", "y"], none⟩
    ⟨"Bob", "New prompt.", some "new.png", none, none, none, none⟩
    true
    (render_readme "Bob" "New prompt." ⟨"new.png", "hey", "v2", "MALE", ["x", "y"]⟩)
    rfl rfl rfl rfl rfl rfl
    (by decide) (by decide) (by decide) (by decide)
    (by decide) (by decide) (by decide)
    (by decide) (by decide) (by decide) (by decide) (by decide) (by decide)
    (by decide) (by decide)
    (by decide)

set_option maxHeartbeats 1000000 in
/-- C8: saving with no existing document and no gender in the input assigns,
for every outcome of the random draw, a gender that is either "MALE" or
"FEMALE", writes it into the rendered document, and re-parsing the written
document returns exactly that gender (with the other omitted fields at
their defaults). -/
theorem save_fresh_gender_C8 (q : PersonaInput) (coin : Bool) (out : String)
    (hqg : q.gender = none)
    (hsave : save_persona q none coin = some out)
    (hn1 : '\n' ∉ q.name.data) (hn2 : trimL q.name.data = q.name.data)
    (hn3 : findSplit "# ".data q.name.data = none)
    (hn4 : ¬ ("## ".data.isPrefixOf (q.name.data ++ [' ']) = true))
    (hp1 : trimL q.prompt.data = q.prompt.data)
    (hp2 : findSplit "\n## ".data q.prompt.data = none)
    (hp3 : ¬ ("## ".data.isPrefixOf q.prompt.data = true))
    (hi1 : '\n' ∉ (q.image.getD "").data)
    (hi2 : trimL (q.image.getD "").data = (q.image.getD "").data)
    (he1 : '\n' ∉ (q.entry_message.getD DEFAULT_ENTRY_MESSAGE).data)
    (he2 : trimL (q.entry_message.getD DEFAULT_ENTRY_MESSAGE).data =
      (q.entry_message.getD DEFAULT_ENTRY_MESSAGE).data)
    (hc1 : '\n' ∉ (q.cartesia_voice_id.getD "").data)
    (hc2 : trimL (q.cartesia_voice_id.getD "").data = (q.cartesia_voice_id.getD "").data)
    (hl : goodTokens ((q.relevant_links.getD []).map String.data)) :
    (genderChoice coin = "MALE" ∨ genderChoice coin = "FEMALE") ∧
    parse_readme out = some ⟨q.name, q.prompt, q.image.getD "",
      q.entry_message.getD DEFAULT_ENTRY_MESSAGE, q.cartesia_voice_id.getD "",
      genderChoice coin, q.relevant_links.getD [], none⟩ := by
  constructor
  · cases coin with
    | false => exact Or.inr rfl
    | true => exact Or.inl rfl
  · have hout : out = render_readme q.name q.prompt (mergeFresh q (genderChoice coin)) := by
      unfold save_persona at hsave
      have hsave' : some (render_readme q.name q.prompt (mergeFresh q (genderChoice coin))) =
          some out := hsave
      injection hsave' with h
      exact h.symm
    have hmerge : mergeFresh q (genderChoice coin) =
        ⟨q.image.getD "", q.entry_message.getD DEFAULT_ENTRY_MESSAGE,
          q.cartesia_voice_id.getD "", genderChoice coin, q.relevant_links.getD []⟩ := by
      unfold mergeFresh
      rw [hqg]
      rfl
    have hg1 : '\n' ∉ (genderChoice coin).data := by
      cases coin <;> decide
    have hg2 : trimL (genderChoice coin).data = (genderChoice coin).data := by
      cases coin <;> decide
    rw [hout, hmerge]
    exact parse_render_roundtrip q.name q.prompt (q.image.getD "")
      (q.entry_message.getD DEFAULT_ENTRY_MESSAGE) (q.cartesia_voice_id.getD "")
      (genderChoice coin) (q.relevant_links.getD []) hn1 hn2 hn3 hn4 hp1 hp2 hp3
      hi1 hi2 he1 he2 hc1 hc2 hg1 hg2 hl

set_option maxRecDepth 100000 in
set_option maxHeartbeats 1000000 in
/-- Witness for C8 at a concrete fresh save with the draw landing on
"FEMALE". -/
theorem save_fresh_gender_C8_witness :
    (genderChoice false = "MALE" ∨ genderChoice false = "FEMALE") ∧
    parse_readme (render_readme "Eve" "Helps out."
      ⟨"", DEFAULT_ENTRY_MESSAGE, "", "FEMALE", []⟩) =
      some ⟨"Eve", "Helps out.", "", DEFAULT_ENTRY_MESSAGE, "", "FEMALE", [], none⟩ :=
  save_fresh_gender_C8 ⟨"Eve", "Helps out.", none, none, none, none, none⟩ false
    (render_readme "Eve" "Helps out." ⟨"", DEFAULT_ENTRY_MESSAGE, "", "FEMALE", []⟩)
    rfl rfl
    (by decide) (by decide) (by decide) (by decide)
    (by decide) (by decide) (by decide)
    (by decide) (by decide)
    (by decide) (by decide)
    (by decide) (by decide)
    (by decide)

end PersonaBot
